import Mathlib

/-!
Shallow embedding of the COLRv1 color-glyph rendering and glyph-mask
conversion code in `src/ports/SkFontHost_FreeType_common.cpp`.

Machine integers are modelled as `Nat`/`Int` with explicit `% 2^w` where
overflow matters.  `SkScalar` (a 32-bit float in the source) is modelled
exactly over `ℚ`; every scalar computation that a claim inspects is either
exact in float as well (fixed-point conversions, F2Dot14 alpha products
below 2^24) or is treated as exact rational arithmetic.
-/

set_option linter.unusedVariables false

/-! ### 1-bit packing (`convert_8_to_1`, `pack_8_to_1`, `packA8ToA1`) -/

/-- Model of `inline int convert_8_to_1(unsigned byte) { return (byte >> 6) != 0; }` -/
def convert_8_to_1 (byte : ℕ) : ℕ :=
  if byte >>> 6 ≠ 0 then 1 else 0

/-- Model of `SkToU8`: cast to `uint8_t` (the source asserts the value already fits). -/
def SkToU8 (x : ℕ) : ℕ := x % 256

/-- Model of `pack_8_to_1`: folds eight alpha samples into one byte, first sample in
the most significant bit: `bits <<= 1; bits |= convert_8_to_1(alpha[i]);`. -/
def pack_8_to_1 (alpha : List ℕ) : ℕ :=
  SkToU8 (alpha.foldl (fun bits a => (bits <<< 1) ||| convert_8_to_1 a) 0)

/-- The left-over-bits loop of `packA8ToA1`: `shift` starts at 7 and
decreases, `bits |= convert_8_to_1(*src++) << shift`. -/
def pack_leftover_bits (alphas : List ℕ) : ℕ :=
  (alphas.foldl (fun acc a => (acc.1 ||| (convert_8_to_1 a <<< acc.2), acc.2 - 1)) (0, 7)).1

/-- One row of `packA8ToA1`: `width >> 3` full octets packed by
`pack_8_to_1`, then one byte holding the `width & 7` left-over bits. -/
def packA8Row : List ℕ → List ℕ
  | a0 :: a1 :: a2 :: a3 :: a4 :: a5 :: a6 :: a7 :: rest =>
      pack_8_to_1 [a0, a1, a2, a3, a4, a5, a6, a7] :: packA8Row rest
  | [] => []
  | rest => [pack_leftover_bits rest]

/-- Model of `packA8ToA1`: each source row (`width` 8-bit samples, source row padding
dropped) is packed to `SkAlign8(width)/8` destination bytes; destination row
padding bytes are not written and are not modelled. -/
def packA8ToA1 (width : ℕ) (rows : List (List ℕ)) : List (List ℕ) :=
  rows.map (fun row => packA8Row (row.take width))

/-! ### Colors and color-stop resolution -/

/-- Model of `SkColorGetA(color) = ((color >> 24) & 0xFF)`. -/
def SkColorGetA (color : ℕ) : ℕ := (color >>> 24) % 256

/-- Model of `SkColorSetA(c, a) = (c & 0x00FFFFFF) | (a << 24)` on `uint32`; the two
operands of the bitwise or have disjoint bits, so the or is an addition, and
`(a << 24)` truncated to 32 bits keeps `a % 256`. -/
def SkColorSetA (c a : ℕ) : ℕ := c % 16777216 + a % 256 * 16777216

def SK_ColorBLACK : ℕ := 0xFF000000

def kForegroundColorPaletteIndex : ℕ := 0xFFFF

/-- Model of `FT_ColorIndex`: palette entry reference plus an F2Dot14 alpha. -/
structure FT_ColorIndex where
  palette_index : ℕ
  alpha : ℕ
deriving DecidableEq

/-- Model of `FT_ColorStop`: an F2Dot14 stop offset and a color reference. -/
structure FT_ColorStop where
  stop_offset : ℤ
  color : FT_ColorIndex
deriving DecidableEq

inductive FT_PaintExtend where
  | pad
  | repeatMode
  | reflect
deriving DecidableEq

/-- An `FT_ColorLine`: the extend mode together with the sequence of stops
its `FT_ColorStopIterator` yields (in iterator order);
`num_color_stops` is the length of that sequence. -/
structure FT_ColorLine where
  extend : FT_PaintExtend
  color_stops : List FT_ColorStop
deriving DecidableEq

inductive SkTileMode where
  | kClamp
  | kRepeat
  | kMirror
  | kDecal
deriving DecidableEq

/-- Model of `ToSkTileMode`: REPEAT ↦ kRepeat, REFLECT ↦ kMirror, default ↦ kClamp. -/
def ToSkTileMode (extendMode : FT_PaintExtend) : SkTileMode :=
  match extendMode with
  | .repeatMode => .kRepeat
  | .reflect => .kMirror
  | _ => .kClamp

/-- The local `struct ColorStop { SkScalar pos; SkColor color; }` used inside
`fetchColorStops`. -/
structure ColorStop where
  pos : ℚ
  color : ℕ
deriving DecidableEq

/-- Resolution of one color stop inside the `fetchColorStops` loop.
`pos = stop_offset / float(1 << 14)`.  The alpha product
`SkColorGetA(base) * SkColrV1AlphaToFloat(alpha)` is exact in float (the
numerator `SkColorGetA base * alpha ≤ 255 * 65535 < 2^24`) and the
conversion to `U8CPU` truncates, hence the `Nat` division by `2^14`. -/
def resolveColorStop (palette : List ℕ) (foregroundColor : ℕ)
    (stop : FT_ColorStop) : Option ColorStop :=
  let pos : ℚ := (stop.stop_offset : ℚ) / 16384
  if stop.color.palette_index = kForegroundColorPaletteIndex then
    some ⟨pos, SkColorSetA foregroundColor
               (SkColorGetA foregroundColor * stop.color.alpha / 16384)⟩
  else if palette.length ≤ stop.color.palette_index then
    none
  else
    let base := palette.getD stop.color.palette_index 0
    some ⟨pos, SkColorSetA base (SkColorGetA base * stop.color.alpha / 16384)⟩

/-- The `while (FT_Get_Colorline_Stops(...))` loop: resolves each raw stop in
iterator order into `colorStopsSorted[index]`, failing at the first stop whose
palette index is out of range and not the foreground index. -/
def resolveColorStops (palette : List ℕ) (foregroundColor : ℕ) :
    List FT_ColorStop → Option (List ColorStop)
  | [] => some []
  | s :: rest =>
    match resolveColorStop palette foregroundColor s with
    | none => none
    | some c =>
      match resolveColorStops palette foregroundColor rest with
      | none => none
      | some cs => some (c :: cs)

/-- The comparator of the `std::stable_sort` call.  The source comparator is
the strict `a.pos < b.pos`; a stable sort places `a` before `b` unless
`b.pos < a.pos`, i.e. it stably sorts by the total preorder `a.pos ≤ b.pos`,
which is the `le` relation `List.mergeSort` uses. -/
def colorStopLe (a b : ColorStop) : Bool := decide (a.pos ≤ b.pos)

/-- Model of `fetchColorStops` (the lambda inside `colrv1_configure_skpaint`):
fails on zero stops, resolves each stop, then stably sorts by offset.
The source splits the sorted list into the `stops`/`colors` arrays; the model
returns the combined sorted list. -/
def fetchColorStops (palette : List ℕ) (foregroundColor : ℕ)
    (colorline : FT_ColorLine) : Option (List ColorStop) :=
  if colorline.color_stops.length = 0 then none
  else
    match resolveColorStops palette foregroundColor colorline.color_stops with
    | none => none
    | some resolved => some (resolved.mergeSort colorStopLe)

/-- The base color a stop resolves against: the caller-supplied foreground
color for the reserved index, the palette entry otherwise. -/
def colrv1BaseColor (palette : List ℕ) (foregroundColor : ℕ) (s : FT_ColorStop) : ℕ :=
  if s.color.palette_index = kForegroundColorPaletteIndex then foregroundColor
  else palette.getD s.color.palette_index 0

/-! ### Gradient geometry -/

/-- Model of `SkPoint` over exact rationals. -/
structure SkPoint where
  x : ℚ
  y : ℚ
deriving DecidableEq

def SkPoint.add (a b : SkPoint) : SkPoint := ⟨a.x + b.x, a.y + b.y⟩

def SkPoint.sub (a b : SkPoint) : SkPoint := ⟨a.x - b.x, a.y - b.y⟩

def SkPoint.scale (p : SkPoint) (k : ℚ) : SkPoint := ⟨p.x * k, p.y * k⟩

def SkPoint.DotProduct (a b : SkPoint) : ℚ := a.x * b.x + a.y * b.y

def SkPoint.CrossProduct (a b : SkPoint) : ℚ := a.x * b.y - a.y * b.x

/-- Model of `SkFixedToScalar`: 16.16 fixed point to scalar. -/
def SkFixedToScalar (x : ℤ) : ℚ := (x : ℚ) / 65536

/-- Model of `SkVectorProjection(a, b)`: the source computes `length = b.length()`,
returns zero when `length` is zero, else normalizes `b` and scales it by
`dot(a,b) / length`, i.e. returns `b * (dot(a,b) / |b|^2)`.  `|b|^2` is the
rational `b.x^2 + b.y^2`, so the square root cancels exactly, and
`b.length() == 0` iff `b.x^2 + b.y^2 == 0`. -/
def SkVectorProjection (a b : SkPoint) : SkPoint :=
  if b.x * b.x + b.y * b.y = 0 then ⟨0, 0⟩
  else b.scale (SkPoint.DotProduct a b / (b.x * b.x + b.y * b.y))

/-- Truncation toward zero, the semantics of C float-to-int conversion and of
the integral part used by `fmodf`. -/
def ratTrunc (q : ℚ) : ℤ := if 0 ≤ q then ⌊q⌋ else ⌈q⌉

/-- Model of `SkScalarMod(x, y)` is C `fmodf`: the truncated remainder. -/
def SkScalarMod (x y : ℚ) : ℚ := x - y * (ratTrunc (x / y) : ℚ)

/-- The `clampAngleToRange` lambda in the sweep-gradient case. -/
def clampAngleToRange (angle : ℚ) : ℚ :=
  let clampedAngle := SkScalarMod angle 360
  if clampedAngle < 0 then clampedAngle + 360 else clampedAngle

/-- The shaders `colrv1_configure_skpaint` can attach, by the factory calls
it makes.  For `MakeSweep` the source passes `startAngle = 0`,
`endAngle = sectorAngle`, flags `0` and a local matrix determined by the
clamped start angle (rotate by `startAngle` about the center, then mirror the
y-axis about the center); the model records `startAngle` and `sectorAngle`. -/
inductive SkShader where
  | linearGradient (p0 p1 : SkPoint) (colors : List ℕ) (stops : List ℚ)
      (tileMode : SkTileMode)
  | twoPointConical (start : SkPoint) (startRadius : ℚ) (end_ : SkPoint)
      (endRadius : ℚ) (colors : List ℕ) (stops : List ℚ) (tileMode : SkTileMode)
  | sweepGradient (center : SkPoint) (colors : List ℕ) (stops : List ℚ)
      (tileMode : SkTileMode) (startAngle sectorAngle : ℚ)
deriving DecidableEq

/-- Model of `SkPaint`, restricted to the two fields this code writes. A fresh paint
has opaque black color and no shader. -/
structure SkPaint where
  color : ℕ
  shader : Option SkShader
deriving DecidableEq

def SkPaint.mkDefault : SkPaint := ⟨SK_ColorBLACK, none⟩

def SkPaint.setColor (p : SkPaint) (c : ℕ) : SkPaint := ⟨c, p.shader⟩

def SkPaint.setShader (p : SkPaint) (s : Option SkShader) : SkPaint := ⟨p.color, s⟩

/-! ### Paint nodes (`FT_COLR_Paint`) -/

structure FT_Vector where
  x : ℤ
  y : ℤ
deriving DecidableEq

/-- Model of `FT_COLR_Paint`: the tagged union of decoded paint nodes.  Opaque paint
references (`FT_OpaquePaint`) are modelled as `ℕ` node identities. -/
inductive FT_COLR_Paint where
  | colr_layers (layers : List ℕ)
  | glyph (glyphID : ℕ) (paint : ℕ)
  | colr_glyph (glyphID : ℕ)
  | transform (xx xy yx yy dx dy : ℤ) (paint : ℕ)
  | translate (dx dy : ℤ) (paint : ℕ)
  | scale (scale_x scale_y center_x center_y : ℤ) (paint : ℕ)
  | rotate (angle center_x center_y : ℤ) (paint : ℕ)
  | skew (x_skew_angle y_skew_angle center_x center_y : ℤ) (paint : ℕ)
  | composite (backdrop_paint source_paint : ℕ) (composite_mode : ℕ)
  | solid (color : FT_ColorIndex)
  | linear_gradient (colorline : FT_ColorLine) (p0 p1 p2 : FT_Vector)
  | radial_gradient (colorline : FT_ColorLine) (c0 : FT_Vector) (r0 : ℤ)
      (c1 : FT_Vector) (r1 : ℤ)
  | sweep_gradient (colorline : FT_ColorLine) (center : FT_Vector)
      (start_angle end_angle : ℤ)
deriving DecidableEq

/-- Model of `SkPoint::Make(SkFixedToScalar(v.x), -SkFixedToScalar(v.y))`: FreeType
coordinates are upward-Y, the renderer is downward-Y, hence the sign flip on
`y` at every conversion site. -/
def SkPointFromFT (v : FT_Vector) : SkPoint := ⟨SkFixedToScalar v.x, -SkFixedToScalar v.y⟩

/-- Model of `colrv1_configure_skpaint`: configures `paint` for a terminal fill node.
Returns the C++ boolean result together with the final state of the
by-pointer `SkPaint` (which the source mutates in place). -/
def colrv1_configure_skpaint (palette : List ℕ) (foregroundColor : ℕ)
    (colrPaint : FT_COLR_Paint) (paint : SkPaint) : Bool × SkPaint :=
  match colrPaint with
  | .solid solidColor =>
    if solidColor.palette_index = kForegroundColorPaletteIndex then
      let newAlpha := SkColorGetA foregroundColor * solidColor.alpha / 16384
      (true, (paint.setShader none).setColor (SkColorSetA foregroundColor newAlpha))
    else if palette.length ≤ solidColor.palette_index then
      (false, paint)
    else
      let base := palette.getD solidColor.palette_index 0
      let newAlpha := SkColorGetA base * solidColor.alpha / 16384
      (true, (paint.setShader none).setColor (SkColorSetA base newAlpha))
  | .linear_gradient colorline p0v p1v p2v =>
    match fetchColorStops palette foregroundColor colorline with
    | none => (false, paint)
    | some resolved =>
      let stops := resolved.map ColorStop.pos
      let colors := resolved.map ColorStop.color
      if stops.length = 1 then
        (true, paint.setColor (colors.headD 0))
      else
        let p0 := SkPointFromFT p0v
        let p1 := SkPointFromFT p1v
        let p2 := SkPointFromFT p2v
        if p1 = p0 ∨ p2 = p0 ∨ SkPoint.CrossProduct (p1.sub p0) (p2.sub p0) = 0 then
          (true, paint.setColor (colors.headD 0))
        else
          let perpendicularToP2P0 : SkPoint := ⟨(p2.sub p0).y, -(p2.sub p0).x⟩
          let p3 := p0.add (SkVectorProjection (p1.sub p0) perpendicularToP2P0)
          let p0p3 := p3.sub p0
          let p0Offset := p0p3.scale (stops.headD 0)
          let p1Offset := p0p3.scale (stops.getLastD 0)
          let linePositions0 := p0.add p0Offset
          let linePositions1 := p0.add p1Offset
          let scaleFactor := 1 / (stops.getLastD 0 - stops.headD 0)
          let startOffset := stops.headD 0
          let stops2 := stops.map (fun stop => (stop - startOffset) * scaleFactor)
          (true, (paint.setColor SK_ColorBLACK).setShader (some
              (.linearGradient linePositions0 linePositions1 colors stops2
                (ToSkTileMode colorline.extend))))
  | .radial_gradient colorline c0 r0 c1 r1 =>
    let start := SkPointFromFT c0
    let startRadius := SkFixedToScalar r0
    let end_ := SkPointFromFT c1
    let endRadius := SkFixedToScalar r1
    match fetchColorStops palette foregroundColor colorline with
    | none => (false, paint)
    | some resolved =>
      let stops := resolved.map ColorStop.pos
      let colors := resolved.map ColorStop.color
      if stops.length = 1 then
        (true, paint.setColor (colors.headD 0))
      else
        (true, (paint.setColor SK_ColorBLACK).setShader (some
            (.twoPointConical start startRadius end_ endRadius colors stops
              (ToSkTileMode colorline.extend))))
  | .sweep_gradient colorline centerv start_angle end_angle =>
    let center := SkPointFromFT centerv
    let startAngle0 := SkFixedToScalar (start_angle * 180)
    let endAngle0 := SkFixedToScalar (end_angle * 180)
    match fetchColorStops palette foregroundColor colorline with
    | none => (false, paint)
    | some resolved =>
      let stops := resolved.map ColorStop.pos
      let colors := resolved.map ColorStop.color
      if stops.length = 1 then
        (true, paint.setColor (colors.headD 0))
      else
        let paint2 := paint.setColor SK_ColorBLACK
        let startAngle := clampAngleToRange startAngle0
        let endAngle := clampAngleToRange endAngle0
        let sectorAngle := if endAngle > startAngle then endAngle - startAngle
                           else endAngle + 360 - startAngle
        (true, paint2.setShader (some (.sweepGradient center colors stops
            (ToSkTileMode colorline.extend) startAngle sectorAngle)))
  | _ => (false, paint)

/-! ### The paint graph and the traversal engines -/

/-- The decoded paint graph a face provides, as the traversal engines see it:
`FT_Get_Paint` on an opaque paint handle, `FT_Get_Color_Glyph_Paint` with
`FT_COLOR_NO_ROOT_TRANSFORM` on a glyph id, and success of
`generateFacePathCOLRv1` on a glyph id.  Canvas state (clip box, transforms,
layers) never feeds back into the boolean results or the visited set and is
not modelled. -/
structure PaintGraph where
  paints : ℕ → Option FT_COLR_Paint
  glyphRootPaint : ℕ → Option ℕ
  glyphPathOk : ℕ → Bool

/-- Model of `VisitedSet`: the set of node identities on the active recursion path. -/
abbrev VisitedSet := Finset ℕ

/-- The terminal fill formats (the fast-path test in the GLYPH case and the
dispatch of `colrv1_draw_paint`). -/
def FT_COLR_Paint.isTerminalFill : FT_COLR_Paint → Bool
  | .solid _ => true
  | .linear_gradient _ _ _ _ => true
  | .radial_gradient _ _ _ _ _ => true
  | .sweep_gradient _ _ _ _ => true
  | _ => false

/-- Model of `colrv1_draw_paint`: GLYPH generates the path and clips (fails only if
path generation fails); terminal fills configure a fresh `SkPaint` and
`drawPaint` it (fails only if configuring fails); transforms and every other
format assert and fail. -/
def colrv1_draw_paint (g : PaintGraph) (palette : List ℕ) (foregroundColor : ℕ)
    (colrPaint : FT_COLR_Paint) : Bool :=
  match colrPaint with
  | .glyph glyphID _ => g.glyphPathOk glyphID
  | .solid _ | .linear_gradient _ _ _ _ | .radial_gradient _ _ _ _ _
  | .sweep_gradient _ _ _ _ =>
      (colrv1_configure_skpaint palette foregroundColor colrPaint SkPaint.mkDefault).1
  | _ => false

/-- Model of `colrv1_draw_glyph_with_path`: configure the fill paint first, then
generate the glyph path; fails if either step fails. -/
def colrv1_draw_glyph_with_path (g : PaintGraph) (palette : List ℕ)
    (foregroundColor : ℕ) (glyphID : ℕ) (fillPaint : FT_COLR_Paint) : Bool :=
  (colrv1_configure_skpaint palette foregroundColor fillPaint SkPaint.mkDefault).1
    && g.glyphPathOk glyphID

/-- One step of the `while (FT_Get_Paint_Layers(...))` loop shared by both
traversal engines: keep a failed or exhausted state, otherwise traverse the
next layer child with the threaded visited set. -/
def traverseLayersStep (t : ℕ → VisitedSet → Option (Bool × VisitedSet))
    (st : Option (Bool × VisitedSet)) (layerPaint : ℕ) : Option (Bool × VisitedSet) :=
  match st with
  | some (true, vs) => t layerPaint vs
  | _ => st

/-- Model of `colrv1_traverse_paint`, with the recursion depth made explicit by a fuel
parameter (`none` = fuel exhausted; the sufficiency of any fuel above the
number of distinct node identities is proved below).  The function returns
the C++ boolean result together with the final contents of the by-pointer
`VisitedSet`: the identity is added on entry and `SK_AT_SCOPE_EXIT` removes
it again on every exit path, which the model applies as the final `erase`
on every returned set.  `colrv1_start_glyph` (the COLR_GLYPH case) is
inlined: root-paint lookup followed by traversal of the root.  The LAYERS
loop threads the visited set through the children and aborts on the first
failing child. -/
def colrv1_traverse_paint (g : PaintGraph) (palette : List ℕ)
    (foregroundColor : ℕ) :
    ℕ → ℕ → VisitedSet → Option (Bool × VisitedSet)
  | 0, _, _ => none
  | fuel + 1, opaquePaint, activePaints =>
    if opaquePaint ∈ activePaints then
      some (false, activePaints)
    else
      let activePaints1 := insert opaquePaint activePaints
      let inner : Option (Bool × VisitedSet) :=
        match g.paints opaquePaint with
        | none => some (false, activePaints1)
        | some paint =>
          match paint with
          | .colr_layers layers =>
            layers.foldl
              (traverseLayersStep (fun layerPaint vs =>
                colrv1_traverse_paint g palette foregroundColor fuel layerPaint vs))
              (some (true, activePaints1))
          | .glyph glyphID innerPaint =>
            match g.paints innerPaint with
            | none => some (false, activePaints1)
            | some fillPaint =>
              if fillPaint.isTerminalFill then
                some (colrv1_draw_glyph_with_path g palette foregroundColor
                        glyphID fillPaint, activePaints1)
              else if colrv1_draw_paint g palette foregroundColor paint then
                colrv1_traverse_paint g palette foregroundColor fuel
                  innerPaint activePaints1
              else
                some (false, activePaints1)
          | .colr_glyph glyphID =>
            match g.glyphRootPaint glyphID with
            | none => some (false, activePaints1)
            | some rootPaint =>
              colrv1_traverse_paint g palette foregroundColor fuel
                rootPaint activePaints1
          | .transform _ _ _ _ _ _ innerPaint =>
            colrv1_traverse_paint g palette foregroundColor fuel
              innerPaint activePaints1
          | .translate _ _ innerPaint =>
            colrv1_traverse_paint g palette foregroundColor fuel
              innerPaint activePaints1
          | .scale _ _ _ _ innerPaint =>
            colrv1_traverse_paint g palette foregroundColor fuel
              innerPaint activePaints1
          | .rotate _ _ _ innerPaint =>
            colrv1_traverse_paint g palette foregroundColor fuel
              innerPaint activePaints1
          | .skew _ _ _ _ innerPaint =>
            colrv1_traverse_paint g palette foregroundColor fuel
              innerPaint activePaints1
          | .composite backdrop_paint source_paint _ =>
            match colrv1_traverse_paint g palette foregroundColor fuel
                    backdrop_paint activePaints1 with
            | none => none
            | some (false, vs) => some (false, vs)
            | some (true, vs) =>
              colrv1_traverse_paint g palette foregroundColor fuel
                source_paint vs
          | .solid _ | .linear_gradient _ _ _ _ | .radial_gradient _ _ _ _ _
          | .sweep_gradient _ _ _ _ =>
            some (colrv1_draw_paint g palette foregroundColor paint, activePaints1)
      inner.map (fun bw => (bw.1, bw.2.erase opaquePaint))

/-- Model of `colrv1_traverse_paint_bounds`, with the same fuel discipline.  The
running transform and the accumulated bounding rectangle never influence the
boolean result or the visited set and are not modelled.  The GLYPH case
joins the (transformed) path bounds and returns without recursing into the
glyph node's inner paint; terminal fills return true immediately;
`colrv1_start_glyph_bounds` (the COLR_GLYPH case) is inlined. -/
def colrv1_traverse_paint_bounds (g : PaintGraph) :
    ℕ → ℕ → VisitedSet → Option (Bool × VisitedSet)
  | 0, _, _ => none
  | fuel + 1, opaquePaint, activePaints =>
    if opaquePaint ∈ activePaints then
      some (false, activePaints)
    else
      let activePaints1 := insert opaquePaint activePaints
      let inner : Option (Bool × VisitedSet) :=
        match g.paints opaquePaint with
        | none => some (false, activePaints1)
        | some paint =>
          match paint with
          | .colr_layers layers =>
            layers.foldl
              (traverseLayersStep (fun layerPaint vs =>
                colrv1_traverse_paint_bounds g fuel layerPaint vs))
              (some (true, activePaints1))
          | .glyph glyphID _ =>
            some (g.glyphPathOk glyphID, activePaints1)
          | .colr_glyph glyphID =>
            match g.glyphRootPaint glyphID with
            | none => some (false, activePaints1)
            | some rootPaint =>
              colrv1_traverse_paint_bounds g fuel rootPaint activePaints1
          | .transform _ _ _ _ _ _ innerPaint =>
            colrv1_traverse_paint_bounds g fuel innerPaint activePaints1
          | .translate _ _ innerPaint =>
            colrv1_traverse_paint_bounds g fuel innerPaint activePaints1
          | .scale _ _ _ _ innerPaint =>
            colrv1_traverse_paint_bounds g fuel innerPaint activePaints1
          | .rotate _ _ _ innerPaint =>
            colrv1_traverse_paint_bounds g fuel innerPaint activePaints1
          | .skew _ _ _ _ innerPaint =>
            colrv1_traverse_paint_bounds g fuel innerPaint activePaints1
          | .composite backdrop_paint source_paint _ =>
            match colrv1_traverse_paint_bounds g fuel backdrop_paint activePaints1 with
            | none => none
            | some (false, vs) => some (false, vs)
            | some (true, vs) =>
              colrv1_traverse_paint_bounds g fuel source_paint vs
          | .solid _ | .linear_gradient _ _ _ _ | .radial_gradient _ _ _ _ _
          | .sweep_gradient _ _ _ _ =>
            some (true, activePaints1)
      inner.map (fun bw => (bw.1, bw.2.erase opaquePaint))

/-! ### Graph reachability -/

/-- The child references a decoded paint node holds, i.e. the edges of the
paint graph.  A COLR_GLYPH node's child is the root paint of the referenced
glyph (when that lookup succeeds). -/
def FT_COLR_Paint.children (g : PaintGraph) : FT_COLR_Paint → List ℕ
  | .colr_layers layers => layers
  | .glyph _ paint => [paint]
  | .colr_glyph glyphID => (g.glyphRootPaint glyphID).toList
  | .transform _ _ _ _ _ _ paint => [paint]
  | .translate _ _ paint => [paint]
  | .scale _ _ _ _ paint => [paint]
  | .rotate _ _ _ paint => [paint]
  | .skew _ _ _ _ paint => [paint]
  | .composite backdrop_paint source_paint _ => [backdrop_paint, source_paint]
  | _ => []

/-- The edges the bounds traversal follows: the same except that the GLYPH
case does not descend into its inner paint. -/
def FT_COLR_Paint.boundsChildren (g : PaintGraph) : FT_COLR_Paint → List ℕ
  | .glyph _ _ => []
  | paint => paint.children g

def PaintGraph.edge (g : PaintGraph) (p q : ℕ) : Prop :=
  ∃ paint, g.paints p = some paint ∧ q ∈ paint.children g

def PaintGraph.boundsEdge (g : PaintGraph) (p q : ℕ) : Prop :=
  ∃ paint, g.paints p = some paint ∧ q ∈ paint.boundsChildren g

def PaintGraph.reach (g : PaintGraph) : ℕ → ℕ → Prop :=
  Relation.ReflTransGen g.edge

def PaintGraph.boundsReach (g : PaintGraph) : ℕ → ℕ → Prop :=
  Relation.ReflTransGen g.boundsEdge

/-- A cycle in the paint graph reachable from `start`. -/
def PaintGraph.hasCycleFrom (g : PaintGraph) (start : ℕ) : Prop :=
  ∃ c d, g.reach start c ∧ g.edge c d ∧ g.reach d c

/-- A cycle reachable from `start` along the edges the bounds traversal
follows. -/
def PaintGraph.hasBoundsCycleFrom (g : PaintGraph) (start : ℕ) : Prop :=
  ∃ c d, g.boundsReach start c ∧ g.boundsEdge c d ∧ g.boundsReach d c

/-- Concrete graph: node 0 is a GLYPH node whose inner paint 1 is a TRANSLATE
node referencing itself, a cycle reachable from 0 only through the glyph
node's inner paint. -/
def cycleBehindGlyphGraph : PaintGraph where
  paints p :=
    match p with
    | 0 => some (.glyph 7 1)
    | 1 => some (.translate 0 0 1)
    | _ => none
  glyphRootPaint _ := none
  glyphPathOk _ := true

/-- Concrete graph: node 0 is a TRANSLATE node referencing itself. -/
def selfLoopGraph : PaintGraph where
  paints p :=
    match p with
    | 0 => some (.translate 0 0 0)
    | _ => none
  glyphRootPaint _ := none
  glyphPathOk _ := true

/-- Concrete graph: node 0 is a LAYERS node over solid children 1 (valid
palette index 0), 2 (out-of-range palette index 99) and 3 (valid). -/
def layersAbortGraph : PaintGraph where
  paints p :=
    match p with
    | 0 => some (.colr_layers [1, 2, 3])
    | 1 => some (.solid ⟨0, 16384⟩)
    | 2 => some (.solid ⟨99, 16384⟩)
    | 3 => some (.solid ⟨0, 16384⟩)
    | _ => none
  glyphRootPaint _ := none
  glyphPathOk _ := true

/-! ### C1: the 1-bit packing threshold -/

theorem convert_8_to_1_le_one (a : ℕ) : convert_8_to_1 a ≤ 1 := by
  unfold convert_8_to_1
  split <;> simp

theorem shiftLeft_or_convert (x a : ℕ) :
    (x <<< 1) ||| convert_8_to_1 a = 2 * x + convert_8_to_1 a := by
  have hx : x <<< 1 = 2 * x := by
    rw [Nat.shiftLeft_eq]
    ring
  have h1 : convert_8_to_1 a = 0 ∨ convert_8_to_1 a = 1 := by
    have := convert_8_to_1_le_one a
    omega
  rcases h1 with h | h
  · simp [h, hx]
  · rw [h, hx]
    apply Nat.eq_of_testBit_eq
    intro i
    rw [Nat.testBit_or]
    cases i with
    | zero => simp [Nat.testBit_zero, Nat.mul_add_mod]
    | succ j =>
      have h1 : (2 * x) / 2 = x := by omega
      have h2 : (2 * x + 1) / 2 = x := by omega
      simp [Nat.testBit_succ, h1, h2]

/-- C1 (counterexample): the claim says an 8-bit alpha sample below `0xC0`
packs to bit `0`, in particular `0xBF → 0`; but `convert_8_to_1 0xBF = 1`
(the source cutoff is one quarter, not three quarters). -/
theorem convert_8_to_1_claim_fails_at_0xBF :
    convert_8_to_1 0xBF = 1 ∧ ¬ convert_8_to_1 0xBF = 0 := by
  decide

/-- C1 (amended): the A8-to-1-bit packing produces bit `1` iff the sample is
at least `0x40` (one quarter), and bit `0` iff it is below `0x40`; in
particular `0x3F` packs to `0` and `0x40` packs to `1`.  `pack_8_to_1`
places the eight thresholded samples in one byte, first sample in the most
significant bit. -/
theorem convert_8_to_1_threshold :
    (∀ a : ℕ, (convert_8_to_1 a = 1 ↔ 0x40 ≤ a) ∧ (convert_8_to_1 a = 0 ↔ a < 0x40)) ∧
    convert_8_to_1 0x3F = 0 ∧ convert_8_to_1 0x40 = 1 ∧
    ∀ a0 a1 a2 a3 a4 a5 a6 a7 : ℕ,
      pack_8_to_1 [a0, a1, a2, a3, a4, a5, a6, a7] =
        128 * convert_8_to_1 a0 + 64 * convert_8_to_1 a1 + 32 * convert_8_to_1 a2 +
        16 * convert_8_to_1 a3 + 8 * convert_8_to_1 a4 + 4 * convert_8_to_1 a5 +
        2 * convert_8_to_1 a6 + convert_8_to_1 a7 := by
  refine ⟨?_, by decide, by decide, ?_⟩
  · intro a
    have hdiv : a >>> 6 = a / 64 := by
      simpa using Nat.shiftRight_eq_div_pow a 6
    unfold convert_8_to_1
    rw [hdiv]
    constructor
    · constructor
      · intro h
        by_contra hlt
        have : a / 64 = 0 := by omega
        simp [this] at h
      · intro h
        have : a / 64 ≠ 0 := by omega
        simp [this]
    · constructor
      · intro h
        by_contra hlt
        have : a / 64 ≠ 0 := by omega
        simp [this] at h
      · intro h
        have : a / 64 = 0 := by omega
        simp [this]
  · intro a0 a1 a2 a3 a4 a5 a6 a7
    have b0 := convert_8_to_1_le_one a0
    have b1 := convert_8_to_1_le_one a1
    have b2 := convert_8_to_1_le_one a2
    have b3 := convert_8_to_1_le_one a3
    have b4 := convert_8_to_1_le_one a4
    have b5 := convert_8_to_1_le_one a5
    have b6 := convert_8_to_1_le_one a6
    have b7 := convert_8_to_1_le_one a7
    unfold pack_8_to_1 SkToU8
    simp only [List.foldl, shiftLeft_or_convert]
    rw [Nat.mod_eq_of_lt (by omega)]
    omega

/-! ### C4, C5: color-stop resolution -/

theorem SkColorGetA_SkColorSetA (c a : ℕ) :
    SkColorGetA (SkColorSetA c a) = a % 256 := by
  unfold SkColorGetA SkColorSetA
  rw [Nat.shiftRight_eq_div_pow]
  norm_num
  omega

theorem SkColorSetA_rgb (c a : ℕ) :
    SkColorSetA c a % 16777216 = c % 16777216 := by
  unfold SkColorSetA
  omega

theorem resolveColorStop_eq_none_iff (palette : List ℕ) (fg : ℕ) (s : FT_ColorStop) :
    resolveColorStop palette fg s = none ↔
      s.color.palette_index ≠ kForegroundColorPaletteIndex ∧
      palette.length ≤ s.color.palette_index := by
  unfold resolveColorStop
  split
  · simp_all
  · split <;> simp_all

theorem resolveColorStops_eq_none_iff (palette : List ℕ) (fg : ℕ)
    (l : List FT_ColorStop) :
    resolveColorStops palette fg l = none ↔
      ∃ s ∈ l, s.color.palette_index ≠ kForegroundColorPaletteIndex ∧
        palette.length ≤ s.color.palette_index := by
  induction l with
  | nil => simp [resolveColorStops]
  | cons s rest ih =>
    unfold resolveColorStops
    rcases h : resolveColorStop palette fg s with _ | c
    · have := (resolveColorStop_eq_none_iff palette fg s).mp h
      simp only [List.mem_cons]
      constructor
      · intro _
        exact ⟨s, Or.inl rfl, this⟩
      · intro _
        trivial
    · have hok : ¬ (s.color.palette_index ≠ kForegroundColorPaletteIndex ∧
          palette.length ≤ s.color.palette_index) := by
        intro hbad
        rw [(resolveColorStop_eq_none_iff palette fg s).mpr hbad] at h
        exact Option.noConfusion h
      rcases h2 : resolveColorStops palette fg rest with _ | cs
      · simp only [List.mem_cons]
        rw [h2] at ih
        constructor
        · intro _
          rcases ih.mp rfl with ⟨t, ht, hbad⟩
          exact ⟨t, Or.inr ht, hbad⟩
        · intro _
          trivial
      · rw [h2] at ih
        simp only [List.mem_cons]
        constructor
        · intro hcontr
          exact Option.noConfusion hcontr
        · rintro ⟨t, ht | ht, hbad⟩
          · exact absurd (ht ▸ hbad) hok
          · exact absurd (ih.mpr ⟨t, ht, hbad⟩) (by simp)

/-- C5: `fetchColorStops` fails exactly when the color line has zero stops or
some stop's palette index is out of range and is not the reserved foreground
index `0xFFFF`; and every stop that resolves keeps the base color's RGB and
gets alpha `⌊baseAlpha * stopAlpha / 2^14⌋` (the truncated product of the
base alpha with the stop's fractional F2Dot14 alpha). -/
theorem fetchColorStops_failure_iff_and_alpha (palette : List ℕ) (fg : ℕ)
    (cl : FT_ColorLine) :
    (fetchColorStops palette fg cl = none ↔
      cl.color_stops = [] ∨ ∃ s ∈ cl.color_stops,
        s.color.palette_index ≠ kForegroundColorPaletteIndex ∧
        palette.length ≤ s.color.palette_index) ∧
    (∀ s ∈ cl.color_stops, ∀ c, resolveColorStop palette fg s = some c →
      s.color.alpha ≤ 16384 →
      SkColorGetA c.color =
        SkColorGetA (colrv1BaseColor palette fg s) * s.color.alpha / 16384 ∧
      c.color % 16777216 = colrv1BaseColor palette fg s % 16777216) := by
  constructor
  · unfold fetchColorStops
    split
    · rename_i hlen
      simp only [List.length_eq_zero] at hlen
      simp [hlen]
    · rename_i hlen
      rcases h : resolveColorStops palette fg cl.color_stops with _ | resolved
      · have := (resolveColorStops_eq_none_iff palette fg cl.color_stops).mp h
        simp only [List.length_eq_zero] at hlen
        simp [this, hlen]
      · have : ¬ ∃ s ∈ cl.color_stops,
            s.color.palette_index ≠ kForegroundColorPaletteIndex ∧
            palette.length ≤ s.color.palette_index := by
          intro hbad
          rw [(resolveColorStops_eq_none_iff palette fg cl.color_stops).mpr hbad] at h
          exact Option.noConfusion h
        simp only [List.length_eq_zero] at hlen
        simp [this, hlen]
  · intro s hs c hc halpha
    have hle : SkColorGetA (colrv1BaseColor palette fg s) * s.color.alpha / 16384 ≤ 255 := by
      have h255 : SkColorGetA (colrv1BaseColor palette fg s) ≤ 255 := by
        unfold SkColorGetA
        omega
      calc SkColorGetA (colrv1BaseColor palette fg s) * s.color.alpha / 16384
          ≤ 255 * 16384 / 16384 :=
            Nat.div_le_div_right (Nat.mul_le_mul h255 halpha)
        _ = 255 := by norm_num
    unfold resolveColorStop at hc
    unfold colrv1BaseColor
    split at hc
    · rename_i hfg
      simp only [Option.some.injEq] at hc
      subst hc
      rw [if_pos hfg]
      refine ⟨?_, SkColorSetA_rgb _ _⟩
      rw [SkColorGetA_SkColorSetA]
      have hle2 : SkColorGetA fg * s.color.alpha / 16384 ≤ 255 := by
        simpa [colrv1BaseColor, hfg] using hle
      omega
    · rename_i hfg
      split at hc
      · exact Option.noConfusion hc
      · simp only [Option.some.injEq] at hc
        subst hc
        rw [if_neg hfg]
        refine ⟨?_, SkColorSetA_rgb _ _⟩
        rw [SkColorGetA_SkColorSetA]
        have hle2 : SkColorGetA (palette.getD s.color.palette_index 0) *
            s.color.alpha / 16384 ≤ 255 := by
          simpa [colrv1BaseColor, hfg] using hle
        omega

/-- C5 witness: palette `[0x80FF0000]`, foreground `0xFF0000FF`, one stop at
offset 0 with palette index 0 and F2Dot14 alpha `0x2000` (one half): the
resolved color has alpha `⌊128 * 8192 / 16384⌋ = 64` over the base RGB. -/
theorem fetchColorStops_alpha_witness :
    SkColorGetA (0x40FF0000 : ℕ) =
      SkColorGetA (colrv1BaseColor [0x80FF0000] 0xFF0000FF ⟨0, ⟨0, 8192⟩⟩) * 8192 / 16384 ∧
    (0x40FF0000 : ℕ) % 16777216 =
      colrv1BaseColor [0x80FF0000] 0xFF0000FF ⟨0, ⟨0, 8192⟩⟩ % 16777216 := by
  have h := (fetchColorStops_failure_iff_and_alpha [0x80FF0000] 0xFF0000FF
      ⟨.pad, [⟨0, ⟨0, 8192⟩⟩]⟩).2 ⟨0, ⟨0, 8192⟩⟩ (by simp)
      ⟨0, 0x40FF0000⟩ (by norm_num [resolveColorStop, kForegroundColorPaletteIndex,
        SkColorGetA, SkColorSetA]; decide) (by decide)
  exact h

theorem colorStopLe_trans (a b c : ColorStop) :
    colorStopLe a b = true → colorStopLe b c = true → colorStopLe a c = true := by
  unfold colorStopLe
  simp only [decide_eq_true_eq]
  exact le_trans

theorem colorStopLe_total (a b : ColorStop) :
    (colorStopLe a b || colorStopLe b a) = true := by
  unfold colorStopLe
  simpa using le_total a.pos b.pos

/-- C4: the resolved stop list a non-empty color line produces is sorted
non-decreasing by offset, and the sort is stable: at every offset `q`, the
sub-sequence of output stops with that offset equals the sub-sequence of
resolved input stops with that offset, in input order. -/
theorem fetchColorStops_sorted_and_stable (palette : List ℕ) (fg : ℕ)
    (cl : FT_ColorLine) (resolved out : List ColorStop)
    (hres : resolveColorStops palette fg cl.color_stops = some resolved)
    (hout : fetchColorStops palette fg cl = some out) :
    out.Pairwise (fun a b => a.pos ≤ b.pos) ∧
    ∀ q : ℚ, out.filter (fun s => decide (s.pos = q)) =
      resolved.filter (fun s => decide (s.pos = q)) := by
  have hmerge : out = resolved.mergeSort colorStopLe := by
    unfold fetchColorStops at hout
    split at hout
    · exact Option.noConfusion hout
    · rw [hres] at hout
      simpa using hout.symm
  subst hmerge
  constructor
  · have hs := List.sorted_mergeSort colorStopLe_trans colorStopLe_total resolved
    exact hs.imp (by
      intro a b hab
      simpa [colorStopLe] using hab)
  · intro q
    set p : ColorStop → Bool := fun s => decide (s.pos = q) with hp
    have hfilter_mem : ∀ a ∈ resolved.filter p, p a = true := fun a ha =>
      List.of_mem_filter ha
    have hpw : (resolved.filter p).Pairwise (fun a b => colorStopLe a b = true) := by
      apply List.pairwise_of_forall_mem_list
      intro a ha b hb
      have hqa : a.pos = q := by simpa [hp] using hfilter_mem a ha
      have hqb : b.pos = q := by simpa [hp] using hfilter_mem b hb
      simp [colorStopLe, hqa, hqb]
    have hsub : (resolved.filter p).Sublist (resolved.mergeSort colorStopLe) :=
      List.sublist_mergeSort colorStopLe_trans colorStopLe_total hpw
        (List.filter_sublist resolved)
    have hsub2 : ((resolved.filter p).filter p).Sublist
        ((resolved.mergeSort colorStopLe).filter p) := List.Sublist.filter p hsub
    have hidem : (resolved.filter p).filter p = resolved.filter p :=
      List.filter_eq_self.mpr hfilter_mem
    rw [hidem] at hsub2
    have hperm : ((resolved.mergeSort colorStopLe).filter p).Perm
        (resolved.filter p) := (List.mergeSort_perm resolved colorStopLe).filter p
    exact (hsub2.eq_of_length hperm.length_eq.symm).symm

/-- C4 witness: palette `[0xFFFF0000]`, foreground `0xFF0000FF`, two stops
with the same offset one half, the first via the palette, the second via the
foreground index: the output keeps them in input order. -/
theorem fetchColorStops_stable_witness :
    [ColorStop.mk (1/2) 0xFFFF0000, ColorStop.mk (1/2) 0xFF0000FF].Pairwise
      (fun a b => a.pos ≤ b.pos) ∧
    ([ColorStop.mk (1/2) 0xFFFF0000, ColorStop.mk (1/2) 0xFF0000FF].filter
        (fun s => decide (s.pos = 1/2)) =
      [ColorStop.mk (1/2) 0xFFFF0000, ColorStop.mk (1/2) 0xFF0000FF].filter
        (fun s => decide (s.pos = 1/2))) := by
  have h := fetchColorStops_sorted_and_stable [0xFFFF0000] 0xFF0000FF
      ⟨.pad, [⟨8192, ⟨0, 16384⟩⟩, ⟨8192, ⟨0xFFFF, 16384⟩⟩]⟩
      [ColorStop.mk (1/2) 0xFFFF0000, ColorStop.mk (1/2) 0xFF0000FF]
      [ColorStop.mk (1/2) 0xFFFF0000, ColorStop.mk (1/2) 0xFF0000FF]
      (by norm_num [resolveColorStops, resolveColorStop,
            kForegroundColorPaletteIndex, SkColorGetA, SkColorSetA]
          decide)
      (by norm_num [fetchColorStops, resolveColorStops, resolveColorStop,
            kForegroundColorPaletteIndex, SkColorGetA, SkColorSetA,
            List.mergeSort, colorStopLe]
          decide)
  exact ⟨h.1, h.2 (1/2)⟩

/-! ### C6, C8, C9, C10: configuring fills -/

/-- C6: a gradient node of any of the three kinds whose color line resolves
to exactly one stop configures successfully into a flat solid fill of that
stop's resolved color on a fresh paint, with no gradient shader attached. -/
theorem colrv1_configure_single_stop_flat (palette : List ℕ) (fg : ℕ)
    (node : FT_COLR_Paint) (cl : FT_ColorLine) (c : ColorStop)
    (hnode : (∃ p0 p1 p2, node = .linear_gradient cl p0 p1 p2) ∨
             (∃ c0 r0 c1 r1, node = .radial_gradient cl c0 r0 c1 r1) ∨
             (∃ ctr sa ea, node = .sweep_gradient cl ctr sa ea))
    (hfetch : fetchColorStops palette fg cl = some [c]) :
    colrv1_configure_skpaint palette fg node SkPaint.mkDefault =
      (true, ⟨c.color, none⟩) := by
  rcases hnode with ⟨p0, p1, p2, rfl⟩ | ⟨c0, r0, c1, r1, rfl⟩ | ⟨ctr, sa, ea, rfl⟩ <;>
    simp [colrv1_configure_skpaint, hfetch, SkPaint.setColor, SkPaint.mkDefault]

/-- C6 witness: a radial gradient whose line has the single stop
(offset one half, foreground index, full alpha) against foreground
`0xFF0000FF` configures to the flat fill `0xFF0000FF` with no shader. -/
theorem colrv1_configure_single_stop_flat_witness :
    colrv1_configure_skpaint [] 0xFF0000FF
      (.radial_gradient ⟨.pad, [⟨8192, ⟨0xFFFF, 16384⟩⟩]⟩ ⟨0, 0⟩ 0 ⟨0, 0⟩ 65536)
      SkPaint.mkDefault = (true, ⟨0xFF0000FF, none⟩) := by
  exact colrv1_configure_single_stop_flat [] 0xFF0000FF _
    ⟨.pad, [⟨8192, ⟨0xFFFF, 16384⟩⟩]⟩ ⟨1/2, 0xFF0000FF⟩
    (Or.inr (Or.inl ⟨⟨0, 0⟩, 0, ⟨0, 0⟩, 65536, rfl⟩))
    (by norm_num [fetchColorStops, resolveColorStops, resolveColorStop,
          kForegroundColorPaletteIndex, SkColorGetA, SkColorSetA,
          List.mergeSort, colorStopLe]
        decide)

/-- C10: whenever `colrv1_configure_skpaint` returns failure, the output
`SkPaint` is the input paint, unmodified: no failure path runs after a
`setColor` or `setShader`. -/
theorem colrv1_configure_failure_leaves_paint (palette : List ℕ) (fg : ℕ)
    (node : FT_COLR_Paint) (paint result : SkPaint)
    (h : colrv1_configure_skpaint palette fg node paint = (false, result)) :
    result = paint := by
  cases node <;> simp only [colrv1_configure_skpaint] at h <;>
    (repeat' split at h) <;>
    (first
      | (injection h with h1 h2; exact h2.symm)
      | (injection h with h1 h2; simp at h1))

/-- C10 witness: a solid node with palette index 99 against a 4-entry
palette fails and leaves a nontrivial input paint unchanged. -/
theorem colrv1_configure_failure_leaves_paint_witness :
    (⟨0x12345678, none⟩ : SkPaint) = ⟨0x12345678, none⟩ := by
  exact colrv1_configure_failure_leaves_paint [1, 2, 3, 4] 0xFF0000FF
    (.solid ⟨99, 16384⟩) ⟨0x12345678, none⟩ ⟨0x12345678, none⟩ (by decide)

theorem sorted_headD_le (l : List ℚ) (hl : l.Pairwise (· ≤ ·)) (x : ℚ) (hx : x ∈ l) :
    l.headD 0 ≤ x := by
  cases l with
  | nil => cases hx
  | cons a rest =>
    rcases List.mem_cons.mp hx with rfl | hx2
    · exact le_refl _
    · exact (List.pairwise_cons.mp hl).1 x hx2

theorem sorted_le_getLastD (l : List ℚ) (hl : l.Pairwise (· ≤ ·)) (x : ℚ) (hx : x ∈ l)
    (d : ℚ) : x ≤ l.getLastD d := by
  induction l generalizing d with
  | nil => cases hx
  | cons a rest ih =>
    rw [List.getLastD_cons]
    rcases List.mem_cons.mp hx with rfl | hx2
    · rcases List.mem_cons.mp (List.getLastD_mem_cons rest x) with heq | hmem
      · rw [heq]
      · exact (List.pairwise_cons.mp hl).1 _ hmem
    · exact ih (List.pairwise_cons.mp hl).2 hx2 a

/-- Helper shared by the gradient claims: the resolved stop list
`fetchColorStops` returns is sorted non-decreasing by offset. -/
theorem fetchColorStops_pairwise_le (palette : List ℕ) (fg : ℕ)
    (cl : FT_ColorLine) (out : List ColorStop)
    (hout : fetchColorStops palette fg cl = some out) :
    out.Pairwise (fun a b => a.pos ≤ b.pos) := by
  unfold fetchColorStops at hout
  split at hout
  · exact Option.noConfusion hout
  · rcases h : resolveColorStops palette fg cl.color_stops with _ | resolved
    · rw [h] at hout
      exact Option.noConfusion hout
    · rw [h] at hout
      simp only [Option.some.injEq] at hout
      subst hout
      have hs := List.sorted_mergeSort colorStopLe_trans colorStopLe_total resolved
      exact hs.imp (by
        intro a b hab
        simpa [colorStopLe] using hab)

/-- C8: a linear-gradient node with at least two resolved stops whose control
points are degenerate (`P1 == P0`, `P2 == P0`, or zero cross product of
`P0P1` and `P0P2` after conversion) configures successfully into a flat fill
of the first resolved stop's color on a fresh paint, with no shader. -/
theorem colrv1_configure_linear_degenerate_flat (palette : List ℕ) (fg : ℕ)
    (cl : FT_ColorLine) (p0v p1v p2v : FT_Vector) (resolved : List ColorStop)
    (hfetch : fetchColorStops palette fg cl = some resolved)
    (hlen : 2 ≤ resolved.length)
    (hdeg : SkPointFromFT p1v = SkPointFromFT p0v ∨
            SkPointFromFT p2v = SkPointFromFT p0v ∨
            SkPoint.CrossProduct ((SkPointFromFT p1v).sub (SkPointFromFT p0v))
              ((SkPointFromFT p2v).sub (SkPointFromFT p0v)) = 0) :
    colrv1_configure_skpaint palette fg (.linear_gradient cl p0v p1v p2v)
      SkPaint.mkDefault = (true, ⟨(resolved.headD ⟨0, 0⟩).color, none⟩) := by
  rcases resolved with _ | ⟨c, rest⟩
  · simp at hlen
  · rcases rest with _ | ⟨c2, rest2⟩
    · simp at hlen
    · simp only [colrv1_configure_skpaint, hfetch]
      rw [if_neg (by simp)]
      rw [if_pos hdeg]
      simp [SkPaint.setColor, SkPaint.mkDefault]

/-- C8 witness: stops at offsets 0 and one half (palette and foreground), a
degenerate geometry with `P2 == P0`: the result is the flat fill of the first
resolved stop's color `0xFFFF0000`. -/
theorem colrv1_configure_linear_degenerate_flat_witness :
    colrv1_configure_skpaint [0xFFFF0000] 0xFF0000FF
      (.linear_gradient ⟨.pad, [⟨0, ⟨0, 16384⟩⟩, ⟨8192, ⟨0xFFFF, 16384⟩⟩]⟩
        ⟨0, 0⟩ ⟨65536, 0⟩ ⟨0, 0⟩)
      SkPaint.mkDefault = (true, ⟨0xFFFF0000, none⟩) := by
  have h := colrv1_configure_linear_degenerate_flat [0xFFFF0000] 0xFF0000FF
      ⟨.pad, [⟨0, ⟨0, 16384⟩⟩, ⟨8192, ⟨0xFFFF, 16384⟩⟩]⟩
      ⟨0, 0⟩ ⟨65536, 0⟩ ⟨0, 0⟩
      [⟨0, 0xFFFF0000⟩, ⟨1/2, 0xFF0000FF⟩]
      (by norm_num [fetchColorStops, resolveColorStops, resolveColorStop,
            kForegroundColorPaletteIndex, SkColorGetA, SkColorSetA,
            List.mergeSort, colorStopLe]
          decide)
      (by norm_num)
      (Or.inr (Or.inl (by norm_num [SkPointFromFT, SkFixedToScalar])))
  simpa using h

/-- C9 (counterexample): a non-degenerate linear gradient with two resolved
stops at the same offset (one half).  The rescale divides by
`last - first = 0`; the source float arithmetic produces an infinite scale
factor and NaN stops, the exact rational model yields scale factor `0`.
Either way both rescaled stops are `0` (not `1`) and both segment endpoints
coincide, refuting the claim that the last stop maps exactly to offset 1. -/
theorem colrv1_configure_linear_rescale_claim_fails :
    colrv1_configure_skpaint [0xFFFF0000] 0xFF0000FF
      (.linear_gradient ⟨.pad, [⟨8192, ⟨0, 16384⟩⟩, ⟨8192, ⟨0xFFFF, 16384⟩⟩]⟩
        ⟨0, 0⟩ ⟨65536, 0⟩ ⟨0, 65536⟩)
      SkPaint.mkDefault =
      (true, ⟨SK_ColorBLACK, some (.linearGradient ⟨1/2, 0⟩ ⟨1/2, 0⟩
        [0xFFFF0000, 0xFF0000FF] [0, 0] .kClamp)⟩) ∧
    ¬ ([(0 : ℚ), 0].getLastD 42 = 1) := by
  constructor
  · norm_num [colrv1_configure_skpaint, fetchColorStops, resolveColorStops,
      resolveColorStop, kForegroundColorPaletteIndex, SkColorGetA, SkColorSetA,
      List.mergeSort, colorStopLe, SkPointFromFT, SkFixedToScalar,
      SkPoint.sub, SkPoint.add, SkPoint.scale, SkPoint.CrossProduct,
      SkPoint.DotProduct, SkVectorProjection, SK_ColorBLACK, ToSkTileMode,
      SkPaint.mkDefault, SkPaint.setColor, SkPaint.setShader]
    decide
  · norm_num

theorem getLastD_map_rat (f : ℚ → ℚ) (l : List ℚ) (hl : l ≠ []) (d d2 : ℚ) :
    (l.map f).getLastD d2 = f (l.getLastD d) := by
  induction l generalizing d d2 with
  | nil => exact absurd rfl hl
  | cons a rest ih =>
    rw [List.map_cons, List.getLastD_cons, List.getLastD_cons]
    rcases rest with _ | ⟨b, rs⟩
    · simp
    · exact ih (by simp) a (f a)

/-- C9 (amended): for a non-degenerate linear gradient with at least two
resolved stops whose first and last offsets differ, the corrected endpoint
`P3` is computed, the segment endpoints move to `P0 + first*(P3-P0)` and
`P0 + last*(P3-P0)`, and the stop offsets are rescaled by
`stop ↦ (stop - first) * (1 / (last - first))`, so the first stop maps
exactly to offset 0, the last exactly to offset 1, and all rescaled offsets
lie in `[0, 1]`. -/
theorem colrv1_configure_linear_rescale (palette : List ℕ) (fg : ℕ)
    (cl : FT_ColorLine) (p0v p1v p2v : FT_Vector) (resolved : List ColorStop)
    (hfetch : fetchColorStops palette fg cl = some resolved)
    (hlen : 2 ≤ resolved.length)
    (hcross : SkPoint.CrossProduct
        ((SkPointFromFT p1v).sub (SkPointFromFT p0v))
        ((SkPointFromFT p2v).sub (SkPointFromFT p0v)) ≠ 0)
    (hspan : (resolved.map ColorStop.pos).headD 0 <
             (resolved.map ColorStop.pos).getLastD 0) :
    ∃ (stops : List ℚ) (first last : ℚ) (p0 p3 : SkPoint) (stops2 : List ℚ),
      stops = resolved.map ColorStop.pos ∧
      first = stops.headD 0 ∧
      last = stops.getLastD 0 ∧
      p0 = SkPointFromFT p0v ∧
      p3 = p0.add (SkVectorProjection ((SkPointFromFT p1v).sub p0)
            ⟨((SkPointFromFT p2v).sub p0).y, -((SkPointFromFT p2v).sub p0).x⟩) ∧
      stops2 = stops.map (fun stop => (stop - first) * (1 / (last - first))) ∧
      colrv1_configure_skpaint palette fg (.linear_gradient cl p0v p1v p2v)
          SkPaint.mkDefault =
        (true, ⟨SK_ColorBLACK, some (.linearGradient
          (p0.add ((p3.sub p0).scale first))
          (p0.add ((p3.sub p0).scale last))
          (resolved.map ColorStop.color) stops2 (ToSkTileMode cl.extend))⟩) ∧
      stops2.headD 42 = 0 ∧
      stops2.getLastD 42 = 1 ∧
      ∀ t ∈ stops2, 0 ≤ t ∧ t ≤ 1 := by
  have hnd : ¬ (SkPointFromFT p1v = SkPointFromFT p0v ∨
      SkPointFromFT p2v = SkPointFromFT p0v ∨
      SkPoint.CrossProduct ((SkPointFromFT p1v).sub (SkPointFromFT p0v))
        ((SkPointFromFT p2v).sub (SkPointFromFT p0v)) = 0) := by
    rintro (h | h | h)
    · apply hcross
      rw [h]
      simp [SkPoint.sub, SkPoint.CrossProduct]
    · apply hcross
      rw [h]
      simp [SkPoint.sub, SkPoint.CrossProduct]
    · exact hcross h
  refine ⟨resolved.map ColorStop.pos,
    (resolved.map ColorStop.pos).headD 0,
    (resolved.map ColorStop.pos).getLastD 0,
    SkPointFromFT p0v, _, _,
    rfl, rfl, rfl, rfl, rfl, rfl, ?_, ?_, ?_, ?_⟩
  · simp only [colrv1_configure_skpaint, hfetch]
    rw [if_neg (by
      simp only [List.length_map]
      omega)]
    rw [if_neg hnd]
    rfl
  · rcases resolved with _ | ⟨c, rest⟩
    · simp at hlen
    · simp
  · have hne : resolved.map ColorStop.pos ≠ [] := by
      rcases resolved with _ | ⟨c, rest⟩
      · simp at hlen
      · simp
    rw [getLastD_map_rat _ _ hne 0 42]
    have hne0 : (resolved.map ColorStop.pos).getLastD 0 -
        (resolved.map ColorStop.pos).headD 0 ≠ 0 :=
      sub_ne_zero_of_ne (ne_of_gt hspan)
    rw [mul_one_div, div_self hne0]
  · intro t ht
    rcases List.mem_map.mp ht with ⟨s, hs, rfl⟩
    have hpwL : (resolved.map ColorStop.pos).Pairwise (· ≤ ·) :=
      List.pairwise_map.mpr (fetchColorStops_pairwise_le palette fg cl resolved hfetch)
    have h1 : (resolved.map ColorStop.pos).headD 0 ≤ s :=
      sorted_headD_le _ hpwL s hs
    have h2 : s ≤ (resolved.map ColorStop.pos).getLastD 0 :=
      sorted_le_getLastD _ hpwL s hs 0
    have hk : (0 : ℚ) ≤ 1 / ((resolved.map ColorStop.pos).getLastD 0 -
        (resolved.map ColorStop.pos).headD 0) :=
      le_of_lt (one_div_pos.mpr (sub_pos.mpr hspan))
    constructor
    · exact mul_nonneg (sub_nonneg.mpr h1) hk
    · have hle := mul_le_mul_of_nonneg_right
        (sub_le_sub_right h2 ((resolved.map ColorStop.pos).headD 0)) hk
      have hone : ((resolved.map ColorStop.pos).getLastD 0 -
          (resolved.map ColorStop.pos).headD 0) *
          (1 / ((resolved.map ColorStop.pos).getLastD 0 -
            (resolved.map ColorStop.pos).headD 0)) = 1 := by
        rw [mul_one_div, div_self (sub_ne_zero_of_ne (ne_of_gt hspan))]
      rw [hone] at hle
      exact hle

/-- C9 witness: palette `[0xFFFF0000]`, foreground `0xFF0000FF`, stops at
offsets 0 and 1, control points `P0=(0,0)`, `P1=(1,0)`, `P2=(0,-1)` after
conversion: the hypotheses of the amended claim hold and its conclusion
follows at this concrete input. -/
theorem colrv1_configure_linear_rescale_witness :
    ∃ (stops : List ℚ) (first last : ℚ) (p0 p3 : SkPoint) (stops2 : List ℚ),
      stops = [ColorStop.mk 0 0xFFFF0000, ColorStop.mk 1 0xFF0000FF].map ColorStop.pos ∧
      first = stops.headD 0 ∧
      last = stops.getLastD 0 ∧
      p0 = SkPointFromFT ⟨0, 0⟩ ∧
      p3 = p0.add (SkVectorProjection ((SkPointFromFT ⟨65536, 0⟩).sub p0)
            ⟨((SkPointFromFT ⟨0, 65536⟩).sub p0).y,
             -((SkPointFromFT ⟨0, 65536⟩).sub p0).x⟩) ∧
      stops2 = stops.map (fun stop => (stop - first) * (1 / (last - first))) ∧
      colrv1_configure_skpaint [0xFFFF0000] 0xFF0000FF
          (.linear_gradient ⟨.pad, [⟨0, ⟨0, 16384⟩⟩, ⟨16384, ⟨0xFFFF, 16384⟩⟩]⟩
            ⟨0, 0⟩ ⟨65536, 0⟩ ⟨0, 65536⟩)
          SkPaint.mkDefault =
        (true, ⟨SK_ColorBLACK, some (.linearGradient
          (p0.add ((p3.sub p0).scale first))
          (p0.add ((p3.sub p0).scale last))
          ([ColorStop.mk 0 0xFFFF0000, ColorStop.mk 1 0xFF0000FF].map ColorStop.color)
          stops2 (ToSkTileMode FT_PaintExtend.pad))⟩) ∧
      stops2.headD 42 = 0 ∧
      stops2.getLastD 42 = 1 ∧
      ∀ t ∈ stops2, 0 ≤ t ∧ t ≤ 1 := by
  exact colrv1_configure_linear_rescale [0xFFFF0000] 0xFF0000FF
    ⟨.pad, [⟨0, ⟨0, 16384⟩⟩, ⟨16384, ⟨0xFFFF, 16384⟩⟩]⟩
    ⟨0, 0⟩ ⟨65536, 0⟩ ⟨0, 65536⟩
    [ColorStop.mk 0 0xFFFF0000, ColorStop.mk 1 0xFF0000FF]
    (by norm_num [fetchColorStops, resolveColorStops, resolveColorStop,
          kForegroundColorPaletteIndex, SkColorGetA, SkColorSetA,
          List.mergeSort, colorStopLe]
        decide)
    (by norm_num)
    (by norm_num [SkPointFromFT, SkFixedToScalar, SkPoint.sub, SkPoint.CrossProduct])
    (by norm_num)

/-! ### C2, C3, C7: the traversal engines -/

theorem foldl_layersStep_none (t : ℕ → VisitedSet → Option (Bool × VisitedSet))
    (cs : List ℕ) : cs.foldl (traverseLayersStep t) none = none := by
  induction cs with
  | nil => rfl
  | cons c cs ih => simpa [List.foldl_cons, traverseLayersStep] using ih

theorem foldl_layersStep_false (t : ℕ → VisitedSet → Option (Bool × VisitedSet))
    (W : VisitedSet) (cs : List ℕ) :
    cs.foldl (traverseLayersStep t) (some (false, W)) = some (false, W) := by
  induction cs with
  | nil => rfl
  | cons c cs ih => simpa [List.foldl_cons, traverseLayersStep] using ih

theorem foldl_layersStep_restores (t : ℕ → VisitedSet → Option (Bool × VisitedSet))
    (ht : ∀ c V r W, t c V = some (r, W) → W = V) (cs : List ℕ) :
    ∀ V r W, cs.foldl (traverseLayersStep t) (some (true, V)) = some (r, W) → W = V := by
  induction cs with
  | nil =>
    intro V r W h
    simp only [List.foldl_nil, Option.some.injEq, Prod.mk.injEq] at h
    exact h.2.symm
  | cons c cs ih =>
    intro V r W h
    rw [List.foldl_cons] at h
    rcases hstep : t c V with _ | ⟨rc, Wc⟩
    · have hred : traverseLayersStep t (some (true, V)) c = none := by
        simp [traverseLayersStep, hstep]
      rw [hred, foldl_layersStep_none] at h
      exact Option.noConfusion h
    · have hred : traverseLayersStep t (some (true, V)) c = some (rc, Wc) := by
        simp [traverseLayersStep, hstep]
      rw [hred] at h
      have hWc : Wc = V := ht c V rc Wc hstep
      cases rc with
      | false =>
        rw [foldl_layersStep_false] at h
        simp only [Option.some.injEq, Prod.mk.injEq] at h
        rw [← h.2, hWc]
      | true =>
        rw [hWc] at h
        exact ih V r W h

theorem foldl_layersStep_success (t : ℕ → VisitedSet → Option (Bool × VisitedSet))
    (ht : ∀ c V r W, t c V = some (r, W) → W = V) (cs : List ℕ) :
    ∀ V W, cs.foldl (traverseLayersStep t) (some (true, V)) = some (true, W) →
      ∀ c ∈ cs, t c V = some (true, V) := by
  induction cs with
  | nil =>
    intro V W h c hc
    cases hc
  | cons c cs ih =>
    intro V W h x hx
    rw [List.foldl_cons] at h
    rcases hstep : t c V with _ | ⟨rc, Wc⟩
    · have hred : traverseLayersStep t (some (true, V)) c = none := by
        simp [traverseLayersStep, hstep]
      rw [hred, foldl_layersStep_none] at h
      exact Option.noConfusion h
    · have hred : traverseLayersStep t (some (true, V)) c = some (rc, Wc) := by
        simp [traverseLayersStep, hstep]
      rw [hred] at h
      have hWc : Wc = V := ht c V rc Wc hstep
      cases rc with
      | false =>
        rw [foldl_layersStep_false] at h
        simp at h
      | true =>
        rw [hWc] at h
        rcases List.mem_cons.mp hx with rfl | hx2
        · rw [hWc] at hstep
          exact hstep
        · exact ih V W h x hx2

theorem foldl_layersStep_all_true (t : ℕ → VisitedSet → Option (Bool × VisitedSet))
    (cs : List ℕ) :
    ∀ V, (∀ c ∈ cs, t c V = some (true, V)) →
      cs.foldl (traverseLayersStep t) (some (true, V)) = some (true, V) := by
  induction cs with
  | nil =>
    intro V _
    rfl
  | cons c cs ih =>
    intro V hall
    rw [List.foldl_cons]
    have hred : traverseLayersStep t (some (true, V)) c = some (true, V) := by
      simp [traverseLayersStep, hall c (List.mem_cons_self c cs)]
    rw [hred]
    exact ih V (fun x hx => hall x (List.mem_cons_of_mem c hx))

theorem foldl_layersStep_abort (t : ℕ → VisitedSet → Option (Bool × VisitedSet))
    (cs1 : List ℕ) (c : ℕ) (cs2 : List ℕ) :
    ∀ V, (∀ x ∈ cs1, t x V = some (true, V)) → t c V = some (false, V) →
      (cs1 ++ c :: cs2).foldl (traverseLayersStep t) (some (true, V)) =
        some (false, V) := by
  induction cs1 with
  | nil =>
    intro V _ hc
    rw [List.nil_append, List.foldl_cons]
    have hred : traverseLayersStep t (some (true, V)) c = some (false, V) := by
      simp [traverseLayersStep, hc]
    rw [hred, foldl_layersStep_false]
  | cons a cs1 ih =>
    intro V hall hc
    rw [List.cons_append, List.foldl_cons]
    have hred : traverseLayersStep t (some (true, V)) a = some (true, V) := by
      simp [traverseLayersStep, hall a (List.mem_cons_self a cs1)]
    rw [hred]
    exact ih V (fun x hx => hall x (List.mem_cons_of_mem a hx)) hc

theorem foldl_layersStep_ne_none (t : ℕ → VisitedSet → Option (Bool × VisitedSet))
    (ht : ∀ c V r W, t c V = some (r, W) → W = V) (cs : List ℕ) :
    ∀ V, (∀ c ∈ cs, t c V ≠ none) →
      cs.foldl (traverseLayersStep t) (some (true, V)) ≠ none := by
  induction cs with
  | nil =>
    intro V _
    simp
  | cons c cs ih =>
    intro V hall
    rw [List.foldl_cons]
    rcases hstep : t c V with _ | ⟨rc, Wc⟩
    · exact absurd hstep (hall c (List.mem_cons_self c cs))
    · have hred : traverseLayersStep t (some (true, V)) c = some (rc, Wc) := by
        simp [traverseLayersStep, hstep]
      rw [hred]
      have hWc : Wc = V := ht c V rc Wc hstep
      cases rc with
      | false =>
        rw [foldl_layersStep_false]
        simp
      | true =>
        rw [hWc]
        exact ih V (fun x hx => hall x (List.mem_cons_of_mem c hx))

theorem colrv1_traverse_paint_restores (g : PaintGraph) (palette : List ℕ) (fg : ℕ) :
    ∀ fuel p V r W, colrv1_traverse_paint g palette fg fuel p V = some (r, W) → W = V := by
  intro fuel
  induction fuel with
  | zero =>
    intro p V r W h
    exact Option.noConfusion h
  | succ fuel ih =>
    intro p V r W h
    simp only [colrv1_traverse_paint] at h
    split at h
    · simp only [Option.some.injEq, Prod.mk.injEq] at h
      exact h.2.symm
    · rename_i hpV
      rcases Option.map_eq_some'.mp h with ⟨⟨r2, W2⟩, hin, heq⟩
      simp only [Prod.mk.injEq] at heq
      rw [← heq.2]
      suffices hW2 : W2 = insert p V by
        rw [hW2]
        exact Finset.erase_insert hpV
      clear h heq
      rcases hgp : g.paints p with _ | paint
      · rw [hgp] at hin
        simp only [Option.some.injEq, Prod.mk.injEq] at hin
        exact hin.2.symm
      · rw [hgp] at hin
        cases paint <;> simp only [] at hin
        case colr_layers layers =>
          exact foldl_layersStep_restores _
            (fun c V r W hc => ih c V r W hc) layers (insert p V) r2 W2 hin
        case glyph glyphID innerPaint =>
          rcases hfi : g.paints innerPaint with _ | fillPaint
          · rw [hfi] at hin
            simp only [Option.some.injEq, Prod.mk.injEq] at hin
            exact hin.2.symm
          · rw [hfi] at hin
            simp only [] at hin
            split at hin
            · simp only [Option.some.injEq, Prod.mk.injEq] at hin
              exact hin.2.symm
            · split at hin
              · exact ih innerPaint (insert p V) r2 W2 hin
              · simp only [Option.some.injEq, Prod.mk.injEq] at hin
                exact hin.2.symm
        case colr_glyph glyphID =>
          rcases hroot : g.glyphRootPaint glyphID with _ | rootPaint
          · rw [hroot] at hin
            simp only [Option.some.injEq, Prod.mk.injEq] at hin
            exact hin.2.symm
          · rw [hroot] at hin
            exact ih rootPaint (insert p V) r2 W2 hin
        case transform xx xy yx yy dx dy innerPaint =>
          exact ih innerPaint (insert p V) r2 W2 hin
        case translate dx dy innerPaint =>
          exact ih innerPaint (insert p V) r2 W2 hin
        case scale sx sy cx cy innerPaint =>
          exact ih innerPaint (insert p V) r2 W2 hin
        case rotate a cx cy innerPaint =>
          exact ih innerPaint (insert p V) r2 W2 hin
        case skew xa ya cx cy innerPaint =>
          exact ih innerPaint (insert p V) r2 W2 hin
        case composite backdrop_paint source_paint mode =>
          rcases hb : colrv1_traverse_paint g palette fg fuel backdrop_paint (insert p V)
              with _ | ⟨rb, Wb⟩
          · rw [hb] at hin
            exact Option.noConfusion hin
          · rw [hb] at hin
            have hWb : Wb = insert p V := ih backdrop_paint (insert p V) rb Wb hb
            cases rb with
            | false =>
              simp only [Option.some.injEq, Prod.mk.injEq] at hin
              rw [← hin.2, hWb]
            | true =>
              have := ih source_paint Wb r2 W2 hin
              rw [this, hWb]
        case solid c =>
          simp only [Option.some.injEq, Prod.mk.injEq] at hin
          exact hin.2.symm
        case linear_gradient cl p0 p1 p2 =>
          simp only [Option.some.injEq, Prod.mk.injEq] at hin
          exact hin.2.symm
        case radial_gradient cl c0 r0 c1 r1 =>
          simp only [Option.some.injEq, Prod.mk.injEq] at hin
          exact hin.2.symm
        case sweep_gradient cl ctr sa ea =>
          simp only [Option.some.injEq, Prod.mk.injEq] at hin
          exact hin.2.symm

theorem colrv1_traverse_paint_bounds_restores (g : PaintGraph) :
    ∀ fuel p V r W, colrv1_traverse_paint_bounds g fuel p V = some (r, W) → W = V := by
  intro fuel
  induction fuel with
  | zero =>
    intro p V r W h
    exact Option.noConfusion h
  | succ fuel ih =>
    intro p V r W h
    simp only [colrv1_traverse_paint_bounds] at h
    split at h
    · simp only [Option.some.injEq, Prod.mk.injEq] at h
      exact h.2.symm
    · rename_i hpV
      rcases Option.map_eq_some'.mp h with ⟨⟨r2, W2⟩, hin, heq⟩
      simp only [Prod.mk.injEq] at heq
      rw [← heq.2]
      suffices hW2 : W2 = insert p V by
        rw [hW2]
        exact Finset.erase_insert hpV
      clear h heq
      rcases hgp : g.paints p with _ | paint
      · rw [hgp] at hin
        simp only [Option.some.injEq, Prod.mk.injEq] at hin
        exact hin.2.symm
      · rw [hgp] at hin
        cases paint <;> simp only [] at hin
        case colr_layers layers =>
          exact foldl_layersStep_restores _
            (fun c V r W hc => ih c V r W hc) layers (insert p V) r2 W2 hin
        case glyph glyphID innerPaint =>
          simp only [Option.some.injEq, Prod.mk.injEq] at hin
          exact hin.2.symm
        case colr_glyph glyphID =>
          rcases hroot : g.glyphRootPaint glyphID with _ | rootPaint
          · rw [hroot] at hin
            simp only [Option.some.injEq, Prod.mk.injEq] at hin
            exact hin.2.symm
          · rw [hroot] at hin
            exact ih rootPaint (insert p V) r2 W2 hin
        case transform xx xy yx yy dx dy innerPaint =>
          exact ih innerPaint (insert p V) r2 W2 hin
        case translate dx dy innerPaint =>
          exact ih innerPaint (insert p V) r2 W2 hin
        case scale sx sy cx cy innerPaint =>
          exact ih innerPaint (insert p V) r2 W2 hin
        case rotate a cx cy innerPaint =>
          exact ih innerPaint (insert p V) r2 W2 hin
        case skew xa ya cx cy innerPaint =>
          exact ih innerPaint (insert p V) r2 W2 hin
        case composite backdrop_paint source_paint mode =>
          rcases hb : colrv1_traverse_paint_bounds g fuel backdrop_paint (insert p V)
              with _ | ⟨rb, Wb⟩
          · rw [hb] at hin
            exact Option.noConfusion hin
          · rw [hb] at hin
            have hWb : Wb = insert p V := ih backdrop_paint (insert p V) rb Wb hb
            cases rb with
            | false =>
              simp only [Option.some.injEq, Prod.mk.injEq] at hin
              rw [← hin.2, hWb]
            | true =>
              have := ih source_paint Wb r2 W2 hin
              rw [this, hWb]
        case solid c =>
          simp only [Option.some.injEq, Prod.mk.injEq] at hin
          exact hin.2.symm
        case linear_gradient cl p0 p1 p2 =>
          simp only [Option.some.injEq, Prod.mk.injEq] at hin
          exact hin.2.symm
        case radial_gradient cl c0 r0 c1 r1 =>
          simp only [Option.some.injEq, Prod.mk.injEq] at hin
          exact hin.2.symm
        case sweep_gradient cl ctr sa ea =>
          simp only [Option.some.injEq, Prod.mk.injEq] at hin
          exact hin.2.symm

theorem colrv1_traverse_paint_true_child (g : PaintGraph) (palette : List ℕ) (fg : ℕ)
    (fuel p : ℕ) (V W : VisitedSet) (paint : FT_COLR_Paint)
    (hgp : g.paints p = some paint)
    (h : colrv1_traverse_paint g palette fg (fuel + 1) p V = some (true, W)) :
    ∀ e ∈ paint.children g,
      (∃ fill, g.paints e = some fill ∧ fill.isTerminalFill = true) ∨
      ∃ W2, colrv1_traverse_paint g palette fg fuel e (insert p V) = some (true, W2) := by
  intro e he
  simp only [colrv1_traverse_paint] at h
  split at h
  · simp at h
  · rename_i hpV
    rcases Option.map_eq_some'.mp h with ⟨⟨r2, W2⟩, hin, heq⟩
    simp only [Prod.mk.injEq] at heq
    rcases heq with ⟨heqr, heqW⟩
    subst heqr
    rw [hgp] at hin
    cases paint <;> simp only [] at hin <;>
      simp only [FT_COLR_Paint.children] at he
    case colr_layers layers =>
      right
      refine ⟨insert p V, ?_⟩
      exact foldl_layersStep_success _
        (fun c V r W hc => colrv1_traverse_paint_restores g palette fg fuel c V r W hc)
        layers (insert p V) W2 hin e he
    case glyph glyphID innerPaint =>
      rcases List.mem_singleton.mp he with rfl
      rcases hfi : g.paints e with _ | fillPaint
      · rw [hfi] at hin
        simp at hin
      · rw [hfi] at hin
        simp only [] at hin
        split at hin
        · rename_i hterm
          exact Or.inl ⟨fillPaint, hfi ▸ rfl, hterm⟩
        · split at hin
          · exact Or.inr ⟨W2, hin⟩
          · simp at hin
    case colr_glyph glyphID =>
      rcases hroot : g.glyphRootPaint glyphID with _ | rootPaint
      · rw [hroot] at he
        simp at he
      · rw [hroot] at he
        simp only [Option.toList_some, List.mem_singleton] at he
        subst he
        rw [hroot] at hin
        exact Or.inr ⟨W2, hin⟩
    case transform xx xy yx yy dx dy innerPaint =>
      rcases List.mem_singleton.mp he with rfl
      exact Or.inr ⟨W2, hin⟩
    case translate dx dy innerPaint =>
      rcases List.mem_singleton.mp he with rfl
      exact Or.inr ⟨W2, hin⟩
    case scale sx sy cx cy innerPaint =>
      rcases List.mem_singleton.mp he with rfl
      exact Or.inr ⟨W2, hin⟩
    case rotate a cx cy innerPaint =>
      rcases List.mem_singleton.mp he with rfl
      exact Or.inr ⟨W2, hin⟩
    case skew xa ya cx cy innerPaint =>
      rcases List.mem_singleton.mp he with rfl
      exact Or.inr ⟨W2, hin⟩
    case composite backdrop_paint source_paint mode =>
      rcases hb : colrv1_traverse_paint g palette fg fuel backdrop_paint (insert p V)
          with _ | ⟨rb, Wb⟩
      · rw [hb] at hin
        exact Option.noConfusion hin
      · rw [hb] at hin
        cases rb with
        | false => simp at hin
        | true =>
          have hWb : Wb = insert p V :=
            colrv1_traverse_paint_restores g palette fg fuel backdrop_paint
              (insert p V) true Wb hb
          rcases List.mem_cons.mp he with rfl | he2
          · right
            exact ⟨Wb, hb⟩
          · rcases List.mem_singleton.mp he2 with rfl
            right
            rw [hWb] at hin
            exact ⟨W2, hin⟩
    case solid c => simp at he
    case linear_gradient cl p0 p1 p2 => simp at he
    case radial_gradient cl c0 r0 c1 r1 => simp at he
    case sweep_gradient cl ctr sa ea => simp at he

theorem FT_COLR_Paint.terminal_children_nil (g : PaintGraph) (fill : FT_COLR_Paint)
    (hterm : fill.isTerminalFill = true) : fill.children g = [] := by
  cases fill <;> first | rfl | simp [FT_COLR_Paint.isTerminalFill] at hterm

theorem colrv1_traverse_paint_true_reach_not_mem (g : PaintGraph) (palette : List ℕ)
    (fg : ℕ) :
    ∀ fuel p V W, colrv1_traverse_paint g palette fg fuel p V = some (true, W) →
      ∀ q, g.reach p q → (∃ x, g.edge q x) → q ∉ V := by
  intro fuel
  induction fuel with
  | zero =>
    intro p V W h
    exact absurd h (by simp [colrv1_traverse_paint])
  | succ fuel ih =>
    intro p V W h q hreach hqe
    have hpV : p ∉ V := by
      by_contra hmem
      simp only [colrv1_traverse_paint, if_pos hmem] at h
      simp at h
    rcases Relation.ReflTransGen.cases_head hreach with rfl | ⟨e, hedge, hreach2⟩
    · exact hpV
    · rcases hedge with ⟨paint, hgp, hchild⟩
      have hch := colrv1_traverse_paint_true_child g palette fg fuel p V W paint hgp h
        e hchild
      rcases hch with ⟨fill, hfill, hterm⟩ | ⟨W2, htrav⟩
      · have hchempty : fill.children g = [] :=
          FT_COLR_Paint.terminal_children_nil g fill hterm
        have hqeq : q = e := by
          rcases Relation.ReflTransGen.cases_head hreach2 with h2 | ⟨x, hex, _⟩
          · exact h2.symm
          · rcases hex with ⟨fill2, hgp2, hchild2⟩
            rw [hfill] at hgp2
            injection hgp2 with h3
            subst h3
            rw [hchempty] at hchild2
            exact absurd hchild2 (List.not_mem_nil x)
        subst hqeq
        rcases hqe with ⟨x, fill2, hgp2, hchild2⟩
        rw [hfill] at hgp2
        injection hgp2 with h3
        subst h3
        rw [hchempty] at hchild2
        exact absurd hchild2 (List.not_mem_nil x)
      · intro hmemV
        exact ih e (insert p V) W2 htrav q hreach2 hqe (Finset.mem_insert_of_mem hmemV)

theorem colrv1_traverse_paint_true_no_cycle (g : PaintGraph) (palette : List ℕ)
    (fg : ℕ) :
    ∀ fuel p V W, colrv1_traverse_paint g palette fg fuel p V = some (true, W) →
      ∀ c d, g.reach p c → g.edge c d → g.reach d c → False := by
  intro fuel
  induction fuel with
  | zero =>
    intro p V W h
    exact absurd h (by simp [colrv1_traverse_paint])
  | succ fuel ih =>
    intro p V W h c d hpc hcd hdc
    rcases Relation.ReflTransGen.cases_head hpc with rfl | ⟨e, hedge, hreach2⟩
    · rcases hcd with ⟨paint, hgp, hchild⟩
      have hch := colrv1_traverse_paint_true_child g palette fg fuel p V W paint hgp h
        d hchild
      rcases hch with ⟨fill, hfill, hterm⟩ | ⟨W2, htrav⟩
      · have hchempty : fill.children g = [] :=
          FT_COLR_Paint.terminal_children_nil g fill hterm
        rcases Relation.ReflTransGen.cases_head hdc with h2 | ⟨x, hdx, _⟩
        · subst h2
          rw [hfill] at hgp
          injection hgp with h3
          subst h3
          rw [hchempty] at hchild
          exact absurd hchild (List.not_mem_nil d)
        · rcases hdx with ⟨fill2, hgp2, hchild2⟩
          rw [hfill] at hgp2
          injection hgp2 with h3
          subst h3
          rw [hchempty] at hchild2
          exact absurd hchild2 (List.not_mem_nil x)
      · have hnotmem := colrv1_traverse_paint_true_reach_not_mem g palette fg fuel d
          (insert p V) W2 htrav p hdc ⟨d, ⟨paint, hgp, hchild⟩⟩
        exact hnotmem (Finset.mem_insert_self p V)
    · rcases hedge with ⟨paint, hgp, hchild⟩
      have hch := colrv1_traverse_paint_true_child g palette fg fuel p V W paint hgp h
        e hchild
      rcases hch with ⟨fill, hfill, hterm⟩ | ⟨W2, htrav⟩
      · have hchempty : fill.children g = [] :=
          FT_COLR_Paint.terminal_children_nil g fill hterm
        have hceq : c = e := by
          rcases Relation.ReflTransGen.cases_head hreach2 with h2 | ⟨x, hex, _⟩
          · exact h2.symm
          · rcases hex with ⟨fill2, hgp2, hchild2⟩
            rw [hfill] at hgp2
            injection hgp2 with h3
            subst h3
            rw [hchempty] at hchild2
            exact absurd hchild2 (List.not_mem_nil x)
        subst hceq
        rcases hcd with ⟨fill2, hgp2, hchild2⟩
        rw [hfill] at hgp2
        injection hgp2 with h3
        subst h3
        rw [hchempty] at hchild2
        exact absurd hchild2 (List.not_mem_nil d)
      · exact ih e (insert p V) W2 htrav c d hreach2 hcd hdc

theorem colrv1_traverse_paint_bounds_true_child (g : PaintGraph)
    (fuel p : ℕ) (V W : VisitedSet) (paint : FT_COLR_Paint)
    (hgp : g.paints p = some paint)
    (h : colrv1_traverse_paint_bounds g (fuel + 1) p V = some (true, W)) :
    ∀ e ∈ paint.boundsChildren g,
      ∃ W2, colrv1_traverse_paint_bounds g fuel e (insert p V) = some (true, W2) := by
  intro e he
  simp only [colrv1_traverse_paint_bounds] at h
  split at h
  · simp at h
  · rename_i hpV
    rcases Option.map_eq_some'.mp h with ⟨⟨r2, W2⟩, hin, heq⟩
    simp only [Prod.mk.injEq] at heq
    rcases heq with ⟨heqr, heqW⟩
    subst heqr
    rw [hgp] at hin
    cases paint <;> simp only [] at hin <;>
      simp only [FT_COLR_Paint.boundsChildren, FT_COLR_Paint.children] at he
    case colr_layers layers =>
      refine ⟨insert p V, ?_⟩
      exact foldl_layersStep_success _
        (fun c V r W hc => colrv1_traverse_paint_bounds_restores g fuel c V r W hc)
        layers (insert p V) W2 hin e he
    case glyph glyphID innerPaint => simp at he
    case colr_glyph glyphID =>
      rcases hroot : g.glyphRootPaint glyphID with _ | rootPaint
      · rw [hroot] at he
        simp at he
      · rw [hroot] at he
        simp only [Option.toList_some, List.mem_singleton] at he
        subst he
        rw [hroot] at hin
        exact ⟨W2, hin⟩
    case transform xx xy yx yy dx dy innerPaint =>
      rcases List.mem_singleton.mp he with rfl
      exact ⟨W2, hin⟩
    case translate dx dy innerPaint =>
      rcases List.mem_singleton.mp he with rfl
      exact ⟨W2, hin⟩
    case scale sx sy cx cy innerPaint =>
      rcases List.mem_singleton.mp he with rfl
      exact ⟨W2, hin⟩
    case rotate a cx cy innerPaint =>
      rcases List.mem_singleton.mp he with rfl
      exact ⟨W2, hin⟩
    case skew xa ya cx cy innerPaint =>
      rcases List.mem_singleton.mp he with rfl
      exact ⟨W2, hin⟩
    case composite backdrop_paint source_paint mode =>
      rcases hb : colrv1_traverse_paint_bounds g fuel backdrop_paint (insert p V)
          with _ | ⟨rb, Wb⟩
      · rw [hb] at hin
        exact Option.noConfusion hin
      · rw [hb] at hin
        cases rb with
        | false => simp at hin
        | true =>
          have hWb : Wb = insert p V :=
            colrv1_traverse_paint_bounds_restores g fuel backdrop_paint
              (insert p V) true Wb hb
          rcases List.mem_cons.mp he with rfl | he2
          · exact ⟨Wb, hb⟩
          · rcases List.mem_singleton.mp he2 with rfl
            rw [hWb] at hin
            exact ⟨W2, hin⟩
    case solid c => simp at he
    case linear_gradient cl p0 p1 p2 => simp at he
    case radial_gradient cl c0 r0 c1 r1 => simp at he
    case sweep_gradient cl ctr sa ea => simp at he

theorem colrv1_traverse_paint_bounds_true_reach_not_mem (g : PaintGraph) :
    ∀ fuel p V W, colrv1_traverse_paint_bounds g fuel p V = some (true, W) →
      ∀ q, g.boundsReach p q → q ∉ V := by
  intro fuel
  induction fuel with
  | zero =>
    intro p V W h
    exact absurd h (by simp [colrv1_traverse_paint_bounds])
  | succ fuel ih =>
    intro p V W h q hreach
    have hpV : p ∉ V := by
      by_contra hmem
      simp only [colrv1_traverse_paint_bounds, if_pos hmem] at h
      simp at h
    rcases Relation.ReflTransGen.cases_head hreach with rfl | ⟨e, hedge, hreach2⟩
    · exact hpV
    · rcases hedge with ⟨paint, hgp, hchild⟩
      rcases colrv1_traverse_paint_bounds_true_child g fuel p V W paint hgp h e hchild
        with ⟨W2, htrav⟩
      intro hmemV
      exact ih e (insert p V) W2 htrav q hreach2 (Finset.mem_insert_of_mem hmemV)

theorem colrv1_traverse_paint_bounds_true_no_cycle (g : PaintGraph) :
    ∀ fuel p V W, colrv1_traverse_paint_bounds g fuel p V = some (true, W) →
      ∀ c d, g.boundsReach p c → g.boundsEdge c d → g.boundsReach d c → False := by
  intro fuel
  induction fuel with
  | zero =>
    intro p V W h
    exact absurd h (by simp [colrv1_traverse_paint_bounds])
  | succ fuel ih =>
    intro p V W h c d hpc hcd hdc
    rcases Relation.ReflTransGen.cases_head hpc with rfl | ⟨e, hedge, hreach2⟩
    · rcases hcd with ⟨paint, hgp, hchild⟩
      rcases colrv1_traverse_paint_bounds_true_child g fuel p V W paint hgp h d hchild
        with ⟨W2, htrav⟩
      have hnotmem := colrv1_traverse_paint_bounds_true_reach_not_mem g fuel d
        (insert p V) W2 htrav p hdc
      exact hnotmem (Finset.mem_insert_self p V)
    · rcases hedge with ⟨paint, hgp, hchild⟩
      rcases colrv1_traverse_paint_bounds_true_child g fuel p V W paint hgp h e hchild
        with ⟨W2, htrav⟩
      exact ih e (insert p V) W2 htrav c d hreach2 hcd hdc

/-- C2 (counterexample): the claim also asserts failure of the bounds sibling
on every reachable cycle.  In `cycleBehindGlyphGraph` the cycle 1 → 1 is
reachable from node 0 through the glyph node's inner paint, yet
`colrv1_traverse_paint_bounds` succeeds because its GLYPH case joins the path
bounds and returns without recursing into the inner paint. -/
theorem colrv1_traverse_paint_bounds_cycle_claim_fails :
    cycleBehindGlyphGraph.hasCycleFrom 0 ∧
    colrv1_traverse_paint_bounds cycleBehindGlyphGraph 3 0 ∅ = some (true, ∅) := by
  constructor
  · refine ⟨1, 1, ?_, ?_, ?_⟩
    · exact Relation.ReflTransGen.single
        ⟨.glyph 7 1, rfl, by simp [FT_COLR_Paint.children]⟩
    · exact ⟨.translate 0 0 1, rfl, by simp [FT_COLR_Paint.children]⟩
    · exact Relation.ReflTransGen.refl
  · decide

/-- C2 (amended): `colrv1_traverse_paint` fails on any graph with a cycle
reachable from the start node, and `colrv1_traverse_paint_bounds` fails on
any cycle reachable along the edges it follows (it does not descend into a
GLYPH node's inner paint); for both, every returning call leaves the
VisitedSet exactly as it found it — each identity is added on entry and
removed on every exit path — so the set is empty again on return from a
top-level call started with the empty set. -/
theorem colrv1_traverse_cycle_detection (g : PaintGraph) (palette : List ℕ) (fg : ℕ) :
    (∀ fuel p V r W, colrv1_traverse_paint g palette fg fuel p V = some (r, W) → W = V) ∧
    (∀ fuel start r W, g.hasCycleFrom start →
      colrv1_traverse_paint g palette fg fuel start ∅ = some (r, W) →
      r = false ∧ W = ∅) ∧
    (∀ fuel p V r W, colrv1_traverse_paint_bounds g fuel p V = some (r, W) → W = V) ∧
    (∀ fuel start r W, g.hasBoundsCycleFrom start →
      colrv1_traverse_paint_bounds g fuel start ∅ = some (r, W) →
      r = false ∧ W = ∅) := by
  refine ⟨colrv1_traverse_paint_restores g palette fg, ?_,
    colrv1_traverse_paint_bounds_restores g, ?_⟩
  · intro fuel start r W hcycle h
    rcases hcycle with ⟨c, d, h1, h2, h3⟩
    cases r with
    | true =>
      exact absurd (colrv1_traverse_paint_true_no_cycle g palette fg fuel start ∅ W h
        c d h1 h2 h3) (by simp)
    | false =>
      exact ⟨rfl, colrv1_traverse_paint_restores g palette fg fuel start ∅ false W h⟩
  · intro fuel start r W hcycle h
    rcases hcycle with ⟨c, d, h1, h2, h3⟩
    cases r with
    | true =>
      exact absurd (colrv1_traverse_paint_bounds_true_no_cycle g fuel start ∅ W h
        c d h1 h2 h3) (by simp)
    | false =>
      exact ⟨rfl, colrv1_traverse_paint_bounds_restores g fuel start ∅ false W h⟩

/-- C2 witness: both cycle conjuncts applied to the concrete self-loop graph,
whose traversals return `(false, ∅)` at fuel 2. -/
theorem colrv1_traverse_cycle_detection_witness :
    (false = false ∧ (∅ : VisitedSet) = ∅) ∧
    (false = false ∧ (∅ : VisitedSet) = ∅) := by
  constructor
  · exact (colrv1_traverse_cycle_detection selfLoopGraph [] 0).2.1 2 0 false ∅
      ⟨0, 0, Relation.ReflTransGen.refl,
        ⟨.translate 0 0 0, rfl, by simp [FT_COLR_Paint.children]⟩,
        Relation.ReflTransGen.refl⟩
      (by decide)
  · exact (colrv1_traverse_cycle_detection selfLoopGraph [] 0).2.2.2 2 0 false ∅
      ⟨0, 0, Relation.ReflTransGen.refl,
        ⟨.translate 0 0 0, rfl,
          by simp [FT_COLR_Paint.boundsChildren, FT_COLR_Paint.children]⟩,
        Relation.ReflTransGen.refl⟩
      (by decide)

/-- C3: the recursion terminates on every graph whose decodable node
identities lie in a finite set `s`: the VisitedSet ancestor check bounds the
recursion depth by the number of distinct node identities not yet visited,
so any fuel above `(s \ V).card` suffices and the fuel case `none` is never
reached.  In particular every finite acyclic paint graph is traversed to
completion. -/
theorem colrv1_traverse_paint_terminates (g : PaintGraph) (palette : List ℕ)
    (fg : ℕ) (s : Finset ℕ) (hdom : ∀ p, (g.paints p).isSome → p ∈ s) :
    ∀ fuel p V, (s \ V).card < fuel →
      colrv1_traverse_paint g palette fg fuel p V ≠ none := by
  intro fuel
  induction fuel with
  | zero =>
    intro p V hcard
    exact absurd hcard (by omega)
  | succ fuel ih =>
    intro p V hcard
    simp only [colrv1_traverse_paint]
    split
    · simp
    · rename_i hpV
      simp only [Ne, Option.map_eq_none']
      rcases hgp : g.paints p with _ | paint
      · simp
      · have hps : p ∈ s := hdom p (by simp [hgp])
        have hpsV : p ∈ s \ V := Finset.mem_sdiff.mpr ⟨hps, hpV⟩
        have hpos : 0 < (s \ V).card := Finset.card_pos.mpr ⟨p, hpsV⟩
        have hcard2 : (s \ insert p V).card < fuel := by
          rw [Finset.sdiff_insert, Finset.card_erase_of_mem hpsV]
          omega
        cases paint <;> simp only []
        case colr_layers layers =>
          exact foldl_layersStep_ne_none _
            (fun c V r W hc => colrv1_traverse_paint_restores g palette fg fuel c V r W hc)
            layers (insert p V)
            (fun c hc => ih c (insert p V) hcard2)
        case glyph glyphID innerPaint =>
          rcases hfi : g.paints innerPaint with _ | fillPaint
          · simp
          · simp only []
            split
            · simp
            · split
              · exact ih innerPaint (insert p V) hcard2
              · simp
        case colr_glyph glyphID =>
          rcases hroot : g.glyphRootPaint glyphID with _ | rootPaint
          · simp
          · exact ih rootPaint (insert p V) hcard2
        case transform xx xy yx yy dx dy innerPaint =>
          exact ih innerPaint (insert p V) hcard2
        case translate dx dy innerPaint =>
          exact ih innerPaint (insert p V) hcard2
        case scale sx sy cx cy innerPaint =>
          exact ih innerPaint (insert p V) hcard2
        case rotate a cx cy innerPaint =>
          exact ih innerPaint (insert p V) hcard2
        case skew xa ya cx cy innerPaint =>
          exact ih innerPaint (insert p V) hcard2
        case composite backdrop_paint source_paint mode =>
          rcases hb : colrv1_traverse_paint g palette fg fuel backdrop_paint (insert p V)
              with _ | ⟨rb, Wb⟩
          · exact absurd hb (ih backdrop_paint (insert p V) hcard2)
          · have hWb : Wb = insert p V :=
              colrv1_traverse_paint_restores g palette fg fuel backdrop_paint
                (insert p V) rb Wb hb
            cases rb with
            | false => simp
            | true =>
              rw [hWb]
              exact ih source_paint (insert p V) hcard2
        case solid c => simp
        case linear_gradient cl p0 p1 p2 => simp
        case radial_gradient cl c0 r0 c1 r1 => simp
        case sweep_gradient cl ctr sa ea => simp

/-- C3 witness: the self-loop graph has its single decodable identity in
`{0}`, so fuel 2 already suffices for the traversal to return. -/
theorem colrv1_traverse_paint_terminates_witness :
    colrv1_traverse_paint selfLoopGraph [] 0 2 0 ∅ ≠ none := by
  apply colrv1_traverse_paint_terminates selfLoopGraph [] 0 {0}
  · intro p hp
    rcases p with _ | n
    · decide
    · simp [selfLoopGraph] at hp
  · decide

/-- C7: a LAYERS node renders its child paint refs in order; if every child
before some child `c` succeeds and `c` fails, the whole list aborts with
failure, independently of the children after `c` (they are never rendered);
and it returns success exactly when every child succeeds. -/
theorem colrv1_traverse_layers_abort_on_first_failure (g : PaintGraph)
    (palette : List ℕ) (fg : ℕ) (fuel p : ℕ) (V : VisitedSet) (hpV : p ∉ V) :
    (∀ cs1 c cs2, g.paints p = some (.colr_layers (cs1 ++ c :: cs2)) →
      (∀ x ∈ cs1, colrv1_traverse_paint g palette fg fuel x (insert p V) =
        some (true, insert p V)) →
      colrv1_traverse_paint g palette fg fuel c (insert p V) =
        some (false, insert p V) →
      colrv1_traverse_paint g palette fg (fuel + 1) p V = some (false, V)) ∧
    (∀ cs, g.paints p = some (.colr_layers cs) →
      (∀ x ∈ cs, colrv1_traverse_paint g palette fg fuel x (insert p V) =
        some (true, insert p V)) →
      colrv1_traverse_paint g palette fg (fuel + 1) p V = some (true, V)) := by
  constructor
  · intro cs1 c cs2 hgp hall hc
    simp only [colrv1_traverse_paint, if_neg hpV, hgp]
    rw [foldl_layersStep_abort _ cs1 c cs2 (insert p V) hall hc]
    simp [Finset.erase_insert hpV]
  · intro cs hgp hall
    simp only [colrv1_traverse_paint, if_neg hpV, hgp]
    rw [foldl_layersStep_all_true _ cs (insert p V) hall]
    simp [Finset.erase_insert hpV]

/-- C7 witness: in `layersAbortGraph` with the one-entry palette
`[0xFFFFFFFF]`, layer child 1 succeeds, child 2 fails (palette index 99 out
of range), so the LAYERS node 0 fails regardless of child 3. -/
theorem colrv1_traverse_layers_abort_witness :
    colrv1_traverse_paint layersAbortGraph [0xFFFFFFFF] 0 2 0 ∅ =
      some (false, ∅) := by
  apply (colrv1_traverse_layers_abort_on_first_failure layersAbortGraph
      [0xFFFFFFFF] 0 1 0 ∅ (by decide)).1 [1] 2 [3] rfl
  · intro x hx
    have hx1 : x = 1 := by simpa using hx
    subst hx1
    decide
  · decide
